import Mathlib

/-!
Verification development for the scraggy AST evaluator.

This file gives a shallow embedding, in Lean 4, of the evaluator found in
`src/evaluator.ts` (the copy whose `evaluateAST` mirrors global-scope
variables back into the caller object and whose class machinery uses the
module-level `currentClassContext` slot), together with `src/scope.ts`,
`src/memory.ts` and `src/runtime.ts` (`RuntimeFunction.call`).

Modelling conventions, stated once here:

* The evaluator is written in async/await style but, absent a real host
  event loop, executes deterministically; the embedding is direct-style:
  `await evaluateNode(...)` is ordinary sequencing.  Host-promise
  resolution (the only genuine suspension) is modelled by an explicit
  schedule parameter `sched : Nat → Value` consulted exactly where the
  source awaits a value: in the `AwaitExpression` case and in the
  `isAsync` paths of `RuntimeFunction.call`.
* The two operands of a `BinaryExpression` are dispatched through
  `Promise.all`; for the synchronous fragment both thunks run to
  completion in order, so the embedding evaluates left then right.
* JavaScript numbers are modelled as integers (`Int`); none of the
  verified claims depends on IEEE-754 specifics.
* Thrown JavaScript exceptions inside the evaluator are always either the
  control-flow carriers `ReturnValue` / `BreakValue` / `ContinueValue`
  (which are `Error` subclasses) or genuine `Error` instances; the
  exception type `Exc` has one constructor for each.  A caught signal
  carrier is reified as a first-class value (`Value.sigRet` etc.), and
  re-throwing such a value raises the original signal again, exactly as
  `throw value` on a `BreakValue` instance does in the source.
* Error objects are compared structurally by strict equality here (the
  host compares them by reference); no verified statement equates two
  separately constructed errors, so the difference is not observable in
  this development.  Quote characters inside host error messages are
  elided.
* Heaps (scopes, runtime functions, methods, classes, objects) are
  association lists keyed by allocation order; `MemoryTracker` is a pair
  of lists of live identifiers.
* Fuel (`Nat`) makes every recursive function total; `none` means the
  fuel ran out, which no real execution does.  The release cascade of
  `Scope.cleanup` carries its own fuel and, on exhaustion, leaves the
  remaining releases unperformed.

Only the syntactic forms exercised by the verified claims are embedded:
plain identifier parameters and rest parameters (destructuring patterns,
default values, spread arguments, loops over iterables and the array /
object literal forms are omitted, as no claim below depends on them).
-/

namespace Scraggy

/-- Error classes used by the evaluator: `new Error(...)`, `new TypeError(...)`
and the host constructors seeded by `Scope.DEFAULT_SCOPE`. -/
inductive ErrKind where
  | genericError
  | typeError
  | referenceError
  | syntaxError
  deriving DecidableEq, Repr

/-- Runtime values: the subset of host values the embedded evaluator
manipulates.  Container values hold indices into the heaps of
`EvalState`.  `sigRet` / `sigBrk` / `sigCont` are the control-flow
carrier objects (`ReturnValue`, `BreakValue`, `ContinueValue`) when a
`catch` binds one; they are `Error` instances in the source. -/
inductive Value where
  | undef
  | jsNull
  | bool (b : Bool)
  | num (n : Int)
  | str (s : String)
  | obj (r : Nat)
  | wrappedFn (rf : Nat)
  | classFn (c : Nat)
  | methodFn (m : Nat)
  | boundFn (m : Nat) (thisVal : Value)
  | hostErrCtor (k : ErrKind)
  | errorV (k : ErrKind) (msg : String)
  | sigRet (v : Value)
  | sigBrk (l : Option String)
  | sigCont (l : Option String)
  | host (h : Nat)
  deriving DecidableEq, Repr

/-- Exceptions propagating through the evaluator: the three control-flow
carriers plus a thrown error value. -/
inductive Exc where
  | ret (v : Value)
  | brk (l : Option String)
  | cont (l : Option String)
  | thrown (v : Value)
  deriving DecidableEq, Repr

/-- Binary operators covered by the embedding. -/
inductive BinOp where
  | add
  | sub
  | mul
  | strictEq
  | strictNeq
  | lt
  deriving DecidableEq, Repr

/-- Signature of a class method definition (`MethodDefinition` minus its
body, which travels beside it in the `classDecl` node). -/
structure MethodSig where
  mname : String
  params : List String
  isStatic : Bool
  isCtor : Bool
  isAsync : Bool
  deriving DecidableEq, Repr

/-- The embedded syntax tree: one constructor per acorn node kind the
verified claims exercise.  Statement and expression nodes share the type,
exactly as `evaluateNode` treats them. -/
inductive Node where
  | lit (v : Value)
  | ident (name : String)
  | thisE
  | binary (op : BinOp) (l r : Node)
  | assignId (name : String) (rhs : Node)
  | assignMember (objE : Node) (prop : String) (rhs : Node)
  | member (objE : Node) (prop : String)
  | superMember (prop : String)
  | callE (callee : Node) (args : List Node)
  | superCall (args : List Node)
  | newE (callee : Node) (args : List Node)
  | chain (e : Node)
  | awaitE (e : Node)
  | funcExpr (params : List String) (body : Node) (isAsync : Bool)
  | block (stmts : List Node)
  | varDecl (name : String) (init : Option Node)
  | funcDecl (name : String) (params : List String) (body : Node) (isAsync : Bool)
  | classDecl (name : String) (superE : Option Node) (methods : List (MethodSig × Node))
  | retS (arg : Option Node)
  | brkS (label : Option String)
  | contS (label : Option String)
  | throwS (arg : Node)
  | ifS (test : Node) (conseq : Node) (alt : Option Node)
  | tryS (blk : Node) (handler : Option (Option String × Node)) (fin : Option Node)
  | switchS (disc : Node) (cases : List (Option Node × List Node))
  | labeled (label : String) (body : Node)

/-- Association-list update with JavaScript `Map.set` / property-write
semantics: an existing key is overwritten in place, a fresh key is
appended, so first-insertion order is preserved. -/
def setKey {α : Type} : List (String × α) → String → α → List (String × α)
  | [], k, v => [(k, v)]
  | (k0, v0) :: rest, k, v =>
      if k0 = k then (k, v) :: rest else (k0, v0) :: setKey rest k v

/-- Association lookup by string key. -/
def getKey {α : Type} : List (String × α) → String → Option α
  | [], _ => none
  | (k0, v0) :: rest, k => if k0 = k then some v0 else getKey rest k

/-- Nat-keyed heap lookup. -/
def hget {α : Type} : List (Nat × α) → Nat → Option α
  | [], _ => none
  | (k0, v0) :: rest, k => if k0 = k then some v0 else hget rest k

/-- Nat-keyed heap update (no-op when the key is absent). -/
def hset {α : Type} : List (Nat × α) → Nat → α → List (Nat × α)
  | [], _, _ => []
  | (k0, v0) :: rest, k, v =>
      if k0 = k then (k, v) :: rest else (k0, v0) :: hset rest k v

/-- Set-flavoured insert for identifier lists (`Set.add`). -/
def addId (l : List Nat) (x : Nat) : List Nat :=
  if x ∈ l then l else l ++ [x]

/-- Set-flavoured removal (`Set.delete`). -/
def removeId (l : List Nat) (x : Nat) : List Nat :=
  l.filter (fun y => y ≠ x)

/-- One lexical scope (`class Scope` fields): variable map, parent link,
child set, reference count and the set of tracked `RuntimeFunction`s. -/
structure ScopeData where
  vars : List (String × Value)
  parent : Option Nat
  children : List Nat
  refCount : Int
  fns : List Nat
  deriving DecidableEq, Repr

/-- One `RuntimeFunction`: parameter descriptors, body, captured scope,
async flag and the destroyed flag. -/
structure RFData where
  params : List String
  body : Node
  scopeId : Nat
  isAsync : Bool
  destroyed : Bool

/-- The closure state of a `methodFunction` / `constructorMethod` built by
`evaluateClassDefinition`: its `RuntimeFunction`, the class-definition
scope it captures and the superclass value in scope at definition time
(`Value.jsNull` when the class has no superclass). -/
structure MethodClosure where
  rf : Nat
  defScope : Nat
  superCls : Value
  deriving DecidableEq, Repr

/-- A class constructor function: its `.prototype` object, own (static)
properties, optional constructor method and superclass value. -/
structure ClassData where
  protoObj : Nat
  statics : List (String × Value)
  ctorM : Option MethodClosure
  superCls : Value
  deriving DecidableEq, Repr

/-- A plain object: insertion-ordered properties plus prototype link.
`proto = none` plays the role of `Object.prototype`. -/
structure ObjData where
  props : List (String × Value)
  proto : Option Nat
  deriving DecidableEq, Repr

/-- The whole mutable world: heaps, allocation counters, the
`MemoryTracker` lists, the module-level `currentClassContext` slot
(`(thisObj, superClass)`, the second component being `jsNull` for a class
without a superclass) and the label stack. -/
structure EvalState where
  scopes : List (Nat × ScopeData)
  rfs : List (Nat × RFData)
  methodsH : List (Nat × MethodClosure)
  classesH : List (Nat × ClassData)
  objs : List (Nat × ObjData)
  nextScope : Nat
  nextRf : Nat
  nextMethod : Nat
  nextClass : Nat
  nextObj : Nat
  trScopes : List Nat
  trFns : List Nat
  classCtx : Option (Value × Value)
  labels : List String

/-- MemoryTracker.getStats: the pair (activeScopes.size, activeFunctions.size). -/
def getStats (st : EvalState) : Nat × Nat :=
  (st.trScopes.length, st.trFns.length)

/-- The evaluation monad: state, exceptions and a fuel-exhaustion
possibility (`none`). -/
def M (α : Type) : Type := EvalState → Option (Except Exc α × EvalState)

instance : Monad M where
  pure a := fun st => some (Except.ok a, st)
  bind m f := fun st =>
    match m st with
    | none => none
    | some (Except.error e, st1) => some (Except.error e, st1)
    | some (Except.ok a, st1) => f a st1

/-- Raise an exception. -/
def throwE {α : Type} (e : Exc) : M α := fun st => some (Except.error e, st)

/-- Fuel exhaustion. -/
def timeoutM {α : Type} : M α := fun _ => none

/-- Read the state. -/
def getS : M EvalState := fun st => some (Except.ok st, st)

/-- Replace the state. -/
def modifyS (f : EvalState → EvalState) : M Unit :=
  fun st => some (Except.ok (), f st)

/-- JavaScript `try { m } catch (e) { h e }`: the handler receives every
exception, control-flow carriers included, exactly as a host `catch`
does. -/
def tryCatchM {α : Type} (m : M α) (h : Exc → M α) : M α := fun st =>
  match m st with
  | none => none
  | some (Except.error e, st1) => h e st1
  | r => r

/-- JavaScript `try { m } finally { fin }`: the finaliser always runs; an
exception from the finaliser supersedes the pending outcome. -/
def tryFinallyM {α : Type} (m : M α) (fin : M Unit) : M α := fun st =>
  match m st with
  | none => none
  | some (r, st1) =>
    match fin st1 with
    | none => none
    | some (Except.error e2, st2) => some (Except.error e2, st2)
    | some (Except.ok _, st2) => some (r, st2)

/-- Is the value a host function (`typeof v === 'function'`)? -/
def isFunction : Value → Bool
  | .wrappedFn _ => true
  | .classFn _ => true
  | .methodFn _ => true
  | .boundFn _ _ => true
  | .hostErrCtor _ => true
  | _ => false

/-- Is the value an `Error` instance (`v instanceof Error`)?  The three
signal carriers extend `Error` in runtime.ts. -/
def isErrorInstance : Value → Bool
  | .errorV _ _ => true
  | .sigRet _ => true
  | .sigBrk _ => true
  | .sigCont _ => true
  | _ => false

/-- JavaScript truthiness. -/
def truthy : Value → Bool
  | .undef => false
  | .jsNull => false
  | .bool b => b
  | .num n => n ≠ 0
  | .str s => s ≠ ""
  | _ => true

/-- The name string of an error class. -/
def errName : ErrKind → String
  | .genericError => "Error"
  | .typeError => "TypeError"
  | .referenceError => "ReferenceError"
  | .syntaxError => "SyntaxError"

/-- Host `String(v)` for the value shapes the claims exercise. -/
def jsToString : Value → String
  | .undef => "undefined"
  | .jsNull => "null"
  | .bool b => if b then "true" else "false"
  | .num n => toString n
  | .str s => s
  | .obj _ => "[object Object]"
  | .errorV k m => errName k ++ ": " ++ m
  | _ => "[object]"

/-- Strict equality `===`; reference equality of containers is index
equality here (see the file preamble for the error-value caveat). -/
def jsStrictEq (a b : Value) : Bool := a = b

/-- The error raised for an unbound name: the source throws
`new Error(...)` whose message carries the reference-error kind. -/
def refErrorVal (n : String) : Value :=
  .errorV .genericError ("Reference Error: " ++ n ++ " is not defined")

/-- Scope.DEFAULT_SCOPE: the eight bindings seeded into every parentless
scope, in the source-literal key order.  `Promise`, `setTimeout`,
`setInterval` and `console` are opaque host values. -/
def defaultScope : List (String × Value) :=
  [ ("Promise", .host 0)
  , ("Error", .hostErrCtor .genericError)
  , ("ReferenceError", .hostErrCtor .referenceError)
  , ("SyntaxError", .hostErrCtor .syntaxError)
  , ("TypeError", .hostErrCtor .typeError)
  , ("setTimeout", .host 1)
  , ("setInterval", .host 2)
  , ("console", .host 3) ]

/-- The keys of `defaultScope`. -/
def defaultNames : List String := defaultScope.map Prod.fst

/-- Operations of the reference-counting cluster (`Scope.release`,
`Scope.cleanup`, `RuntimeFunction.destroy`), run by `memRun`. -/
inductive MemOp where
  | release (sc : Nat)
  | destroyFn (rf : Nat)
  deriving DecidableEq, Repr

/-- Read a scope from the heap. -/
def scopeOf (st : EvalState) (sc : Nat) : Option ScopeData := hget st.scopes sc

/-- Write a scope back to the heap. -/
def putScope (st : EvalState) (sc : Nat) (d : ScopeData) : EvalState :=
  { st with scopes := hset st.scopes sc d }

/-- The wrapped `RuntimeFunction` behind a value, when there is one
(`getRuntimeFunction`: only wrapper functions are in the `WeakMap`). -/
def runtimeFnOf : Value → Option Nat
  | .wrappedFn rf => some rf
  | _ => none

/-- Run a release / destroy cascade.  This is `Scope.release` together
with `Scope.cleanup`, `Scope.removeChild` and `RuntimeFunction.destroy`,
with one fuel unit consumed per operation; exhausted fuel abandons the
remaining cascade (never reached at the fuel the theorems use).

`cleanup` order follows the source: destroy functions held in variable
slots, clear variables, destroy tracked functions, clear the set, detach
from the parent (releasing it on successful removal), release every
child, clear children, untrack from the memory tracker. -/
def memRun : Nat → MemOp → EvalState → EvalState
  | 0, _, st => st
  | f + 1, .release sc, st =>
    match scopeOf st sc with
    | none => st
    | some d =>
      let d1 := { d with refCount := d.refCount - 1 }
      let st1 := putScope st sc d1
      if d1.refCount = 0 then
        -- cleanup: destroy functions stored in variable slots
        let st2 := d1.vars.foldl
          (fun acc kv =>
            match runtimeFnOf kv.2 with
            | some rf => memRun f (.destroyFn rf) acc
            | none => acc) st1
        -- clear variables
        let st3 :=
          match scopeOf st2 sc with
          | some d2 => putScope st2 sc { d2 with vars := [] }
          | none => st2
        -- destroy tracked functions, clear the set
        let st4 := d1.fns.foldl (fun acc rf => memRun f (.destroyFn rf) acc) st3
        let st5 :=
          match scopeOf st4 sc with
          | some d4 => putScope st4 sc { d4 with fns := [] }
          | none => st4
        -- detach from the parent (removeChild releases the parent on hit)
        let st6 :=
          match d1.parent with
          | none => st5
          | some p =>
            match scopeOf st5 p with
            | none => st5
            | some pd =>
              if sc ∈ pd.children then
                let st5a := putScope st5 p { pd with children := removeId pd.children sc }
                memRun f (.release p) st5a
              else st5
        -- release every child, clear the child set
        let st7 := d1.children.foldl (fun acc c => memRun f (.release c) acc) st6
        let st8 :=
          match scopeOf st7 sc with
          | some d7 => putScope st7 sc { d7 with children := [] }
          | none => st7
        -- untrack from the memory tracker
        { st8 with trScopes := removeId st8.trScopes sc }
      else st1
  | f + 1, .destroyFn rf, st =>
    match hget st.rfs rf with
    | none => st
    | some fd =>
      if fd.destroyed then st
      else
        let st1 := { st with rfs := hset st.rfs rf { fd with destroyed := true } }
        let st2 := memRun f (.release fd.scopeId) st1
        let st3 := { st2 with trFns := removeId st2.trFns rf }
        match scopeOf st3 fd.scopeId with
        | some od => putScope st3 fd.scopeId { od with fns := removeId od.fns rf }
        | none => st3

/-- Scope.define: destroy an outgoing wrapped function, set the binding,
track an incoming wrapped function.  `f` fuels the destroy cascade. -/
def scopeDefine (f : Nat) (sc : Nat) (n : String) (v : Value) (st : EvalState) : EvalState :=
  match scopeOf st sc with
  | none => st
  | some d =>
    let st1 :=
      match getKey d.vars n with
      | some old =>
        match runtimeFnOf old with
        | some rf => memRun f (.destroyFn rf) st
        | none => st
      | none => st
    match scopeOf st1 sc with
    | none => st1
    | some d1 =>
      let d2 := { d1 with vars := setKey d1.vars n v }
      let d3 :=
        match runtimeFnOf v with
        | some rf => { d2 with fns := addId d2.fns rf }
        | none => d2
      putScope st1 sc d3

/-- Scope.assign: walk the parent chain; on a hit run the same
destroy-overwrite-track dance as `define` and report success; report
failure when the chain is exhausted.  The chain is walked with its own
bound (parent identifiers are strictly older, so `sc + 1` steps
always suffice). -/
def scopeAssign : Nat → Nat → Nat → String → Value → EvalState → Bool × EvalState
  | 0, _, _, _, _, st => (false, st)
  | chainFuel + 1, f, sc, n, v, st =>
    match scopeOf st sc with
    | none => (false, st)
    | some d =>
      match getKey d.vars n with
      | some old =>
        let st1 :=
          match runtimeFnOf old with
          | some rf => memRun f (.destroyFn rf) st
          | none => st
        match scopeOf st1 sc with
        | none => (true, st1)
        | some d1 =>
          let d2 := { d1 with vars := setKey d1.vars n v }
          let d3 :=
            match runtimeFnOf v with
            | some rf => { d2 with fns := addId d2.fns rf }
            | none => d2
          (true, putScope st1 sc d3)
      | none =>
        match d.parent with
        | some p => scopeAssign chainFuel f p n v st
        | none => (false, st)

/-- Scope.lookup: first match up the parent chain, `none` when absent
(the source returns `undefined` for both an absent name and a name bound
to `undefined`; callers cannot tell the two apart). -/
def scopeLookup : Nat → Nat → String → EvalState → Option Value
  | 0, _, _, _ => none
  | chainFuel + 1, sc, n, st =>
    match scopeOf st sc with
    | none => none
    | some d =>
      match getKey d.vars n with
      | some v => some v
      | none =>
        match d.parent with
        | some p => scopeLookup chainFuel p n st
        | none => none

/-- Scope.lookup with the standard chain bound. -/
def lookupV (st : EvalState) (sc : Nat) (n : String) : Option Value :=
  scopeLookup (sc + 1) sc n st

/-- Scope.assign with the standard chain bound. -/
def assignV (f : Nat) (st : EvalState) (sc : Nat) (n : String) (v : Value) :
    Bool × EvalState :=
  scopeAssign (sc + 1) f sc n v st

/-- The Scope constructor: fresh identifier, reference count 1, parent
registration (`addChild` bumps the parent count) or, for a parentless
scope, seeding of `Scope.DEFAULT_SCOPE`; finally tracker registration.
The initial map copies `Object.entries(initial)` into a `Map`, so later
duplicate keys win. -/
def scopeNew (f : Nat) (parent : Option Nat) (initial : List (String × Value))
    (st : EvalState) : Nat × EvalState :=
  let sc := st.nextScope
  let vars0 := initial.foldl (fun acc kv => setKey acc kv.1 kv.2) []
  let d : ScopeData :=
    { vars := vars0, parent := parent, children := [], refCount := 1, fns := [] }
  let st1 := { st with scopes := st.scopes ++ [(sc, d)], nextScope := sc + 1 }
  let st2 :=
    match parent with
    | some p =>
      match scopeOf st1 p with
      | some pd =>
        putScope st1 p
          { pd with children := addId pd.children sc, refCount := pd.refCount + 1 }
      | none => st1
    | none =>
      defaultScope.foldl
        (fun (acc : EvalState) (kv : String × Value) => scopeDefine f sc kv.1 kv.2 acc) st1
  (sc, { st2 with trScopes := addId st2.trScopes sc })

/-- Scope.addRef. -/
def scopeAddRef (sc : Nat) (st : EvalState) : EvalState :=
  match scopeOf st sc with
  | some d => putScope st sc { d with refCount := d.refCount + 1 }
  | none => st

/-- The RuntimeFunction constructor: the captured scope gains a
reference, the tracker and the owner scope record the new function. -/
def rfNew (params : List String) (body : Node) (sc : Nat) (isAsync : Bool)
    (st : EvalState) : Nat × EvalState :=
  let rf := st.nextRf
  let fd : RFData :=
    { params := params, body := body, scopeId := sc, isAsync := isAsync, destroyed := false }
  let st1 := { st with rfs := st.rfs ++ [(rf, fd)], nextRf := rf + 1 }
  let st2 := scopeAddRef sc st1
  let st3 := { st2 with trFns := addId st2.trFns rf }
  let st4 :=
    match scopeOf st3 sc with
    | some d => putScope st3 sc { d with fns := addId d.fns rf }
    | none => st3
  (rf, st4)

/-- Allocate a plain object. -/
def objNew (props : List (String × Value)) (proto : Option Nat) (st : EvalState) :
    Nat × EvalState :=
  let r := st.nextObj
  (r, { st with objs := st.objs ++ [(r, { props := props, proto := proto })], nextObj := r + 1 })

/-- Property read along an object prototype chain.  Prototype identifiers
are strictly older than the objects that point at them, so `r + 1` steps
bound the walk; a missing property is `undefined`. -/
def objGetProp : Nat → Nat → String → EvalState → Value
  | 0, _, _, _ => .undef
  | fuel + 1, r, p, st =>
    match hget st.objs r with
    | none => .undef
    | some d =>
      match getKey d.props p with
      | some v => v
      | none =>
        match d.proto with
        | some q => objGetProp fuel q p st
        | none => Value.undef

/-- Static-property read on a class constructor function: own statics
first, then — because `Object.setPrototypeOf(constructor, superClass)`
chains constructors — the superclass statics; `prototype` resolves to the
prototype object. -/
def classGetProp : Nat → Nat → String → EvalState → Value
  | 0, _, _, _ => .undef
  | fuel + 1, c, p, st =>
    match hget st.classesH c with
    | none => .undef
    | some cd =>
      if p = "prototype" then .obj cd.protoObj
      else
        match getKey cd.statics p with
        | some v => v
        | none =>
          match cd.superCls with
          | .classFn c2 => classGetProp fuel c2 p st
          | _ => Value.undef

/-- Generic property read (`object[prop]`). -/
def getProp (v : Value) (p : String) (st : EvalState) : Value :=
  match v with
  | .obj r => objGetProp (r + 1) r p st
  | .classFn c => classGetProp (c + 1) c p st
  | .errorV k m =>
    if p = "message" then .str m
    else if p = "name" then .str (errName k)
    else .undef
  | _ => Value.undef

/-- Generic property write (`object[prop] = v`); writes to
non-container values are dropped. -/
def setProp (target : Value) (p : String) (v : Value) (st : EvalState) : EvalState :=
  match target with
  | .obj r =>
    match hget st.objs r with
    | some d => { st with objs := hset st.objs r { d with props := setKey d.props p v } }
    | none => st
  | .classFn c =>
    match hget st.classesH c with
    | some cd => { st with classesH := hset st.classesH c { cd with statics := setKey cd.statics p v } }
    | none => st
  | _ => st

/-- Object.getPrototypeOf for the shapes the Super branch touches; the
chain past the last embedded object is `Object.prototype`, whose
prototype is `null`. -/
def getProtoV (v : Value) (st : EvalState) : Value :=
  match v with
  | .obj r =>
    match hget st.objs r with
    | some d =>
      match d.proto with
      | some q => .obj q
      | none => .jsNull
    | none => .jsNull
  | _ => .jsNull

/-- Binary operator semantics for the embedded operators (the source
defers to the host operators; the integer fragment is modelled, see the
preamble). -/
def applyBinOp (op : BinOp) (a b : Value) : Value :=
  match op with
  | .add =>
    match a, b with
    | .num x, .num y => .num (x + y)
    | .str x, y => .str (x ++ jsToString y)
    | x, .str y => .str (jsToString x ++ y)
    | _, _ => .undef
  | .sub =>
    match a, b with
    | .num x, .num y => .num (x - y)
    | _, _ => .undef
  | .mul =>
    match a, b with
    | .num x, .num y => .num (x * y)
    | _, _ => .undef
  | .strictEq => .bool (jsStrictEq a b)
  | .strictNeq => .bool (!jsStrictEq a b)
  | .lt =>
    match a, b with
    | .num x, .num y => .bool (x < y)
    | _, _ => .bool false

/-- The exception raised by `throw value`: an `Error` instance is thrown
as-is (a reified signal carrier resumes its original signal, because the
carrier classes extend `Error`), anything else is wrapped as
`new Error(String(value))`. -/
def throwValue (v : Value) : Exc :=
  match v with
  | .sigRet x => .ret x
  | .sigBrk l => .brk l
  | .sigCont l => .cont l
  | .errorV _ _ => .thrown v
  | _ => .thrown (.errorV .genericError (jsToString v))

/-- The value a `catch (e)` binds for a caught exception: the thrown
error, or the reified control-flow carrier object. -/
def excToValue : Exc → Value
  | .ret v => .sigRet v
  | .brk l => .sigBrk l
  | .cont l => .sigCont l
  | .thrown v => v

/-- The schedule: the value each host promise resolves to in this run.
It models host timing and is consulted only at suspension points. -/
def Sched : Type := Nat → Value

/-- Awaiting a value: a host promise resolves through the schedule,
anything else passes through unchanged. -/
def awaitVal (sched : Sched) (v : Value) : Value :=
  match v with
  | .host h => sched h
  | _ => v

/-- getCurrentLabel: top of the label stack. -/
def currentLabel (st : EvalState) : Option String := st.labels.head?

/-- The empty initial world. -/
def initState : EvalState :=
  { scopes := [], rfs := [], methodsH := [], classesH := [], objs := []
  , nextScope := 0, nextRf := 0, nextMethod := 0, nextClass := 0, nextObj := 0
  , trScopes := [], trFns := [], classCtx := none, labels := [] }

/-- Monadic `Scope.release`. -/
def releaseM (f : Nat) (sc : Nat) : M Unit := modifyS (memRun f (.release sc))

/-- Monadic scope allocation. -/
def scopeNewM (f : Nat) (parent : Option Nat) (initial : List (String × Value)) : M Nat :=
  fun st =>
    let (sc, st1) := scopeNew f parent initial st
    some (Except.ok sc, st1)

/-- Monadic `RuntimeFunction` allocation. -/
def rfNewM (params : List String) (body : Node) (sc : Nat) (isAsync : Bool) : M Nat :=
  fun st =>
    let (rf, st1) := rfNew params body sc isAsync st
    some (Except.ok rf, st1)

/-- Monadic object allocation. -/
def objNewM (props : List (String × Value)) (proto : Option Nat) : M Nat :=
  fun st =>
    let (r, st1) := objNew props proto st
    some (Except.ok r, st1)

/-- Positional parameter binding of `RuntimeFunction.call`: missing
arguments bind `undefined`, extra arguments are discarded. -/
def bindParamsSt (f : Nat) (sc : Nat) : List String → List Value → EvalState → EvalState
  | [], _, st => st
  | n :: ns, args, st =>
      bindParamsSt f sc ns args.tail (scopeDefine f sc n (args.headD .undef) st)

/-- Plain `=` assignment to an identifier: `Cannot assign to undefined
variable` when the whole chain misses. -/
def assignOrThrow (f : Nat) (sc : Nat) (n : String) (v : Value) : M Value := fun st =>
  let (ok, st1) := assignV f st sc n v
  if ok then some (Except.ok v, st1)
  else
    some (Except.error (.thrown (.errorV .genericError ("Cannot assign to undefined variable " ++ n))), st1)

/-- Function.prototype.bind as used by the Super member branch: a method
function is re-receivered; the remaining callable shapes ignore their
receiver, so binding leaves them unchanged (a bound function keeps its
original receiver, as `bind` does). -/
def bindThis (v : Value) (thisV : Value) : Value :=
  match v with
  | .methodFn m => .boundFn m thisV
  | .boundFn m t => .boundFn m t
  | other => other

/-- Does the host treat the value as an `Object` (the `[[Construct]]`
result check of `new`)? -/
def isJsObject : Value → Bool
  | .obj _ => true
  | .errorV _ _ => true
  | .sigRet _ => true
  | .sigBrk _ => true
  | .sigCont _ => true
  | .wrappedFn _ => true
  | .classFn _ => true
  | .methodFn _ => true
  | .boundFn _ _ => true
  | .hostErrCtor _ => true
  | .host _ => true
  | _ => false

/-- The method-building loop of `evaluateClassDefinition`: one
`RuntimeFunction` per method, collected into the constructor slot, the
static table or the instance table in source order (a later constructor
definition overwrites an earlier one). -/
def buildMethods (f : Nat) (superCls : Value) (sc : Nat) :
    List (MethodSig × Node) → Option MethodClosure → List (String × Value) →
      List (String × Value) → EvalState →
      Option MethodClosure × List (String × Value) × List (String × Value) × EvalState
  | [], ctorAcc, statAcc, instAcc, st => (ctorAcc, statAcc, instAcc, st)
  | (sig, body) :: rest, ctorAcc, statAcc, instAcc, st =>
    let (rf, st1) := rfNew sig.params body sc sig.isAsync st
    let mc : MethodClosure := { rf := rf, defScope := sc, superCls := superCls }
    if sig.isCtor then
      buildMethods f superCls sc rest (some mc) statAcc instAcc st1
    else
      let mid := st1.nextMethod
      let st2 :=
        { st1 with methodsH := st1.methodsH ++ [(mid, mc)], nextMethod := mid + 1 }
      if sig.isStatic then
        buildMethods f superCls sc rest ctorAcc
          (setKey statAcc sig.mname (.methodFn mid)) instAcc st2
      else
        buildMethods f superCls sc rest ctorAcc statAcc
          (setKey instAcc sig.mname (.methodFn mid)) st2

/-- Argument-list evaluation (`flatArgs` without spread elements): the
`for`-loop of `CallExpression`, recursing on the list with each element
handed to the node evaluator `ev`. -/
def evalListF (ev : Node → Nat → M Value) (nodes : List Node) (sc : Nat) :
    M (List Value) :=
  List.rec (motive := fun _ => M (List Value))
    (pure [])
    (fun x _ ih => do
      let v ← ev x sc
      let vs ← ih
      pure (v :: vs))
    nodes

/-- The statement loop shared by `Program` bodies and `BlockStatement`:
the value of the last statement is the result. -/
def runStmtsF (ev : Node → Nat → M Value) (stmts : List Node) (sc : Nat) (res : Value) :
    M Value :=
  List.rec (motive := fun _ => Value → M Value)
    (fun r => pure r)
    (fun s _ ih _ => do
      let v ← ev s sc
      ih v)
    stmts res

/-- One case consequent under the per-case `try`/`catch` of the switch
loop: statements run in order; an unlabelled `BreakValue` is caught and
reports the result accumulated so far (`Sum.inr`); any other exception
propagates. -/
def swBodyF (ev : Node → Nat → M Value) (stmts : List Node) (sc : Nat) (res : Value) :
    M (Value ⊕ Value) :=
  List.rec (motive := fun _ => Value → M (Value ⊕ Value))
    (fun r => pure (Sum.inl r))
    (fun s _ ih r => fun st =>
      match ev s sc st with
      | none => none
      | some (Except.ok v, st1) => ih v st1
      | some (Except.error (.brk none), st1) => some (Except.ok (Sum.inr r), st1)
      | some (Except.error e, st1) => some (Except.error e, st1))
    stmts res

/-- The case-walking loop of the `SwitchStatement` handler, carrying the
`matched` and `fallthrough` flags and the running result exactly as the
source does. -/
def switchLoopF (ev : Node → Nat → M Value) (d : Value)
    (cases : List (Option Node × List Node)) (swSc : Nat)
    (matched fallthrough : Bool) (res : Value) : M Value :=
  List.rec (motive := fun _ => Bool → Bool → Value → M Value)
    (fun _ _ r => pure r)
    (fun c _ ih m ft r => do
      let flags ←
        match c.1 with
        | none =>
          -- the default case: fallthrough begins when nothing matched yet
          pure (m, if m = false ∧ ft = false then true else ft)
        | some t =>
          if ft then pure (m, ft)
          else do
            let tv ← ev t swSc
            if jsStrictEq d tv then pure (true, true) else pure (m, ft)
      if flags.2 then do
        let r2 ← swBodyF ev c.2 swSc r
        match r2 with
        | Sum.inl res2 => ih flags.1 flags.2 res2
        | Sum.inr resB => pure resB
      else ih flags.1 flags.2 r)
    cases matched fallthrough res

/-- The bundle of mutually recursive evaluator entry points at one fuel
level.  The cluster is tied by an explicit `Nat.rec` (see `interp`), so
one fuel unit is consumed on every entry into any of them. -/
structure Interp where
  node : Node → Nat → M Value
  call : Nat → List Value → M Value
  applyV : Value → Value → List Value → M Value
  methodA : MethodClosure → Value → List Value → M Value
  newV : Value → List Value → M Value
  classDef : Option Node → List (MethodSig × Node) → Nat → M Value

/-- The zero-fuel interpreter: every entry point is out of fuel. -/
def interpZ : Interp where
  node := fun _ _ => timeoutM
  call := fun _ _ => timeoutM
  applyV := fun _ _ _ => timeoutM
  methodA := fun _ _ _ => timeoutM
  newV := fun _ _ => timeoutM
  classDef := fun _ _ _ => timeoutM

/-- One evaluator step: the bodies of the mutually recursive evaluator
functions, with every recursive entry going through `prev`, the
interpreter at the predecessor fuel `f`. -/
def mkStep (sched : Sched) (f : Nat) (prev : Interp) : Interp where
  /- `evaluateNode`: one case per embedded node kind. -/
  node := fun node sc =>
    match node with
    | .lit v => pure v
    | .ident n =>
      -- the literal name `undefined` evaluates to undefined
      if n = "undefined" then pure .undef
      else do
        let st ← getS
        let identValue := (lookupV st sc n).getD Value.undef
        -- `identValue === undefined && !scope.lookup(name)`
        if identValue = .undef ∧ truthy ((lookupV st sc n).getD .undef) = false then
          throwE (.thrown (refErrorVal n))
        else pure identValue
    | .thisE => do
      let st ← getS
      let thisValue := (lookupV st sc "this").getD .undef
      if thisValue = .undef then
        match st.classCtx with
        | some ctx => pure ctx.1
        | none => pure .undef
      else pure thisValue
    | .binary op l r => do
      -- both operands are dispatched through Promise.all; for the
      -- synchronous fragment this is left-then-right completion
      let lv ← prev.node l sc
      let rv ← prev.node r sc
      pure (applyBinOp op lv rv)
    | .assignId n rhs => do
      let v ← prev.node rhs sc
      assignOrThrow f sc n v
    | .assignMember objE p rhs => do
      let objV ← prev.node objE sc
      let memberValue ← prev.node rhs sc
      if objV = .undef ∨ objV = .jsNull then
        throwE (.thrown (.errorV .typeError
          ("Cannot set property " ++ p ++ " of " ++ jsToString objV)))
      else do
        modifyS (setProp objV p memberValue)
        pure memberValue
    | .member objE p => do
      let objV ← prev.node objE sc
      if objV = .undef ∨ objV = .jsNull then
        throwE (.thrown (.errorV .typeError
          ("Cannot read property " ++ p ++ " of " ++
            (if objV = .undef then "undefined" else "null"))))
      else do
        let st ← getS
        pure (getProp objV p st)
    | .superMember p => do
      let st ← getS
      match st.classCtx with
      | none =>
        throwE (.thrown (.errorV .genericError
          "Super reference is not properly bound to a class method"))
      | some ctx =>
        if truthy ctx.2 = false then
          throwE (.thrown (.errorV .genericError
            "Cannot use super in a class with no superclass"))
        else
          -- the receiver-relative lookup: two prototype links above `this`
          let superProto := getProtoV (getProtoV ctx.1 st) st
          match superProto with
          | .jsNull =>
            throwE (.thrown (.errorV .typeError
              ("Cannot read property " ++ p ++ " of null")))
          | .undef =>
            throwE (.thrown (.errorV .typeError
              ("Cannot read property " ++ p ++ " of undefined")))
          | sp =>
            let propValue := getProp sp p st
            if isFunction propValue then pure (bindThis propValue ctx.1)
            else pure propValue
    | .callE callee args => do
      let calleeV ← prev.node callee sc
      let argVals ← evalListF prev.node args sc
      -- raw RuntimeFunction values never appear (only their wrappers do),
      -- so the `callee instanceof RuntimeFunction` branch is unreachable
      if isFunction calleeV then
        match callee with
        | .superMember _ => prev.applyV calleeV .undef argVals
        | .member o _ => do
          -- the source re-evaluates the member object for the receiver
          let objV ← prev.node o sc
          prev.applyV calleeV objV argVals
        | _ => prev.applyV calleeV .undef argVals
      else throwE (.thrown (.errorV .genericError "Attempted to call a non-function"))
    | .superCall args => do
      let st ← getS
      match st.classCtx with
      | none =>
        throwE (.thrown (.errorV .genericError
          "Super constructor call is not properly bound to a class constructor"))
      | some ctx =>
        if truthy ctx.2 = false then
          throwE (.thrown (.errorV .genericError
            "Cannot use super() in a class with no superclass"))
        else do
          let argVals ← evalListF prev.node args sc
          tryCatchM
            (do
              let _ ← prev.applyV ctx.2 ctx.1 argVals
              pure Value.undef)
            (fun e =>
              throwE (.thrown (.errorV .genericError
                ("Error in super() call: " ++ jsToString (excToValue e)))))
    | .newE callee args => do
      let ctor ← prev.node callee sc
      let argVals ← evalListF prev.node args sc
      if isFunction ctor then prev.newV ctor argVals
      else throwE (.thrown (.errorV .typeError "Constructor must be a function"))
    | .chain e =>
      -- the ChainExpression catch-all: any exception yields undefined
      tryCatchM (prev.node e sc) (fun _ => pure .undef)
    | .awaitE e => do
      let v ← prev.node e sc
      pure (awaitVal sched v)
    | .funcExpr params body isAsync => do
      let rf ← rfNewM params body sc isAsync
      pure (.wrappedFn rf)
    | .block stmts => do
      let bsc ← scopeNewM f (some sc) []
      tryFinallyM (runStmtsF prev.node stmts bsc .undef) (releaseM f bsc)
    | .varDecl n initO => do
      let v ←
        match initO with
        | some e => prev.node e sc
        | none => pure .undef
      modifyS (scopeDefine f sc n v)
      pure .undef
    | .funcDecl n params body isAsync => do
      let rf ← rfNewM params body sc isAsync
      modifyS (scopeDefine f sc n (.wrappedFn rf))
      pure .undef
    | .classDecl n superE methods => do
      let cv ← prev.classDef superE methods sc
      modifyS (scopeDefine f sc n cv)
      pure .undef
    | .retS argO => do
      let v ←
        match argO with
        | some e => prev.node e sc
        | none => pure .undef
      throwE (.ret v)
    | .brkS l => do
      let st ← getS
      match l with
      | some lbl =>
        if lbl ∈ st.labels then throwE (.brk (some lbl))
        else throwE (.thrown (.errorV .genericError ("Undefined label: " ++ lbl)))
      | none => throwE (.brk none)
    | .contS l => do
      let st ← getS
      match l with
      | some lbl =>
        if lbl ∈ st.labels then throwE (.cont (some lbl))
        else throwE (.thrown (.errorV .genericError ("Undefined label: " ++ lbl)))
      | none => throwE (.cont none)
    | .throwS a => do
      let v ← prev.node a sc
      throwE (throwValue v)
    | .ifS test conseq altO => do
      let t ← prev.node test sc
      if truthy t then prev.node conseq sc
      else
        match altO with
        | some a => prev.node a sc
        | none => pure .undef
    | .tryS blk handler fin =>
      let core : M Value :=
        tryCatchM (prev.node blk sc)
          (fun e =>
            match handler with
            | some h => do
              let hsc ← scopeNewM f (some sc) []
              (match h.1 with
               | some pn => modifyS (scopeDefine f hsc pn (excToValue e))
               | none => pure ())
              -- the catch scope is never released here (no `finally` in
              -- the source pairs this creation with a release)
              prev.node h.2 hsc
            | none => throwE e)
      match fin with
      | some fe =>
        tryFinallyM core (do let _ ← prev.node fe sc; pure ())
      | none => core
    | .switchS disc cases => do
      let d ← prev.node disc sc
      let swSc ← scopeNewM f (some sc) []
      tryFinallyM (switchLoopF prev.node d cases swSc false false .undef) (releaseM f swSc)
    | .labeled lbl body => do
      modifyS (fun st => { st with labels := lbl :: st.labels })
      tryFinallyM (prev.node body sc)
        (modifyS (fun st => { st with labels := st.labels.tail }))
  /- RuntimeFunction.call: activation scope over the captured scope,
  positional binding, body evaluation, `ReturnValue` unwrapping, implicit
  await of an async result, and an unconditional release of the
  activation scope. -/
  call := fun rfId args => do
    let st ← getS
    match hget st.rfs rfId with
    | none => throwE (.thrown (.errorV .genericError "Cannot call destroyed function"))
    | some fd =>
      if fd.destroyed then
        throwE (.thrown (.errorV .genericError "Cannot call destroyed function"))
      else do
        let fnSc ← scopeNewM f (some fd.scopeId) []
        tryFinallyM
          (do
            modifyS (bindParamsSt f fnSc fd.params args)
            tryCatchM
              (do
                let r ← prev.node fd.body fnSc
                pure (if fd.isAsync then awaitVal sched r else r))
              (fun e =>
                match e with
                | .ret v => pure (if fd.isAsync then awaitVal sched v else v)
                | _ => throwE e))
          (releaseM f fnSc)
  /- Invoke a callable value with an explicit receiver: the JS-level call
  behaviour of each function shape the evaluator creates. -/
  applyV := fun callee thisV args =>
    match callee with
    | .wrappedFn rf => prev.call rf args
    | .methodFn m => do
      let st ← getS
      match hget st.methodsH m with
      | some mc => prev.methodA mc thisV args
      | none => throwE (.thrown (.errorV .genericError "Attempted to call a non-function"))
    | .boundFn m t => do
      let st ← getS
      match hget st.methodsH m with
      | some mc => prev.methodA mc t args
      | none => throwE (.thrown (.errorV .genericError "Attempted to call a non-function"))
    | .classFn c => do
      let st ← getS
      match hget st.classesH c with
      | none => throwE (.thrown (.errorV .genericError "Attempted to call a non-function"))
      | some cd =>
        match cd.ctorM with
        | some mc => prev.methodA mc thisV args
        | none =>
          if truthy cd.superCls then do
            -- the default derived constructor of `createClass`
            modifyS (fun st1 => { st1 with classCtx := some (thisV, cd.superCls) })
            tryFinallyM
              (do
                let _ ← prev.applyV cd.superCls thisV args
                pure Value.undef)
              (modifyS (fun st1 => { st1 with classCtx := none }))
          else pure .undef
    | .hostErrCtor k =>
      pure (.errorV k ((args.headD .undef |> jsToString)))
    | _ => throwE (.thrown (.errorV .genericError "Attempted to call a non-function"))
  /- The `methodFunction` / `constructorMethod` wrapper built by
  `evaluateClassDefinition`: a fresh method scope with `this` and
  `super`, the class context installed for the activation and reset to
  null — not restored — on exit, and the underlying `RuntimeFunction`
  invoked. -/
  methodA := fun mc thisV args => do
    let msc ← scopeNewM f (some mc.defScope) []
    modifyS (scopeDefine f msc "this" thisV)
    modifyS (scopeDefine f msc "super" mc.superCls)
    modifyS (fun st => { st with classCtx := some (thisV, mc.superCls) })
    tryFinallyM (prev.call mc.rf args)
      (do
        modifyS (fun st => { st with classCtx := none })
        releaseM f msc)
  /- `new constructor(...)`: an instance over the class prototype, the
  constructor behaviour applied to it, and the host object-result rule.
  Host error classes construct error values; the remaining function
  shapes are not constructible (never exercised by the evaluator
  output). -/
  newV := fun ctor args =>
    match ctor with
    | .classFn c => do
      let st ← getS
      match hget st.classesH c with
      | none => throwE (.thrown (.errorV .typeError "Constructor must be a function"))
      | some cd => do
        let instRef ← objNewM [] (some cd.protoObj)
        let r ← prev.applyV ctor (.obj instRef) args
        pure (if isJsObject r then r else .obj instRef)
    | .hostErrCtor k =>
      pure (.errorV k (match args.head? with
        | some a => jsToString a
        | none => ""))
    | _ => throwE (.thrown (.errorV .typeError "Constructor is not constructible"))
  /- `evaluateClassDefinition`: evaluate and check the superclass
  expression, build the method tables, chain the prototype object to the
  superclass prototype and assemble the class constructor. -/
  classDef := fun superE methods sc => do
    let superCls ←
      match superE with
      | none => pure Value.jsNull
      | some e => do
        let v ← prev.node e sc
        if isFunction v then pure v
        else throwE (.thrown (.errorV .typeError "Class extends value is not a constructor"))
    fun st =>
      let built := buildMethods f superCls sc methods none [] [] st
      let protoLink :=
        match superCls with
        | .classFn s =>
          match hget built.2.2.2.classesH s with
          | some sd => some sd.protoObj
          | none => none
        | _ => none
      let poPair := objNew built.2.2.1 protoLink built.2.2.2
      let cid := poPair.2.nextClass
      let cd : ClassData :=
        { protoObj := poPair.1, statics := built.2.1, ctorM := built.1, superCls := superCls }
      some (Except.ok (Value.classFn cid),
        { poPair.2 with classesH := poPair.2.classesH ++ [(cid, cd)], nextClass := cid + 1 })

/-- The interpreter at a given fuel, tied by `Nat.rec`: fuel zero is
`interpZ`, and each further level is one `mkStep` over the level
below. -/
def interp (sched : Sched) (fuel : Nat) : Interp :=
  Nat.rec interpZ (fun n prev => mkStep sched n prev) fuel

/-- `evaluateNode`. -/
def evalNode (sched : Sched) (fuel : Nat) (node : Node) (sc : Nat) : M Value :=
  (interp sched fuel).node node sc

/-- Argument-list evaluation at a fuel level. -/
def evalList (sched : Sched) (fuel : Nat) (nodes : List Node) (sc : Nat) : M (List Value) :=
  evalListF (evalNode sched fuel) nodes sc

/-- The statement loop of `Program` and `BlockStatement` at a fuel level. -/
def runStmts (sched : Sched) (fuel : Nat) (stmts : List Node) (sc : Nat) (res : Value) :
    M Value :=
  runStmtsF (evalNode sched fuel) stmts sc res

/-- One switch-case consequent under its `try`/`catch`, at a fuel level. -/
def swBody (sched : Sched) (fuel : Nat) (stmts : List Node) (sc : Nat) (res : Value) :
    M (Value ⊕ Value) :=
  swBodyF (evalNode sched fuel) stmts sc res

/-- The case-walking loop of `SwitchStatement` at a fuel level. -/
def switchLoop (sched : Sched) (fuel : Nat) (d : Value)
    (cases : List (Option Node × List Node)) (swSc : Nat)
    (matched fallthrough : Bool) (res : Value) : M Value :=
  switchLoopF (evalNode sched fuel) d cases swSc matched fallthrough res

/-- RuntimeFunction.call. -/
def rfCall (sched : Sched) (fuel : Nat) (rfId : Nat) (args : List Value) : M Value :=
  (interp sched fuel).call rfId args

/-- Invocation of a callable value with an explicit receiver. -/
def applyWithThis (sched : Sched) (fuel : Nat) (callee thisV : Value)
    (args : List Value) : M Value :=
  (interp sched fuel).applyV callee thisV args

/-- The class method / constructor wrapper invocation. -/
def methodApply (sched : Sched) (fuel : Nat) (mc : MethodClosure) (thisV : Value)
    (args : List Value) : M Value :=
  (interp sched fuel).methodA mc thisV args

/-- `new constructor(...)`. -/
def jsNew (sched : Sched) (fuel : Nat) (ctor : Value) (args : List Value) : M Value :=
  (interp sched fuel).newV ctor args

/-- `evaluateClassDefinition`. -/
def evalClassDef (sched : Sched) (fuel : Nat) (superE : Option Node)
    (methods : List (MethodSig × Node)) (sc : Nat) : M Value :=
  (interp sched fuel).classDef superE methods sc

/-- Modelled from the spec: `Scope.getVariables` is absent from the
available sources (only its call site in `evaluateAST` survives); per
§4.1/§6 the environment is a name-to-value map and the mirroring loop
iterates its entries, so `getVariables` returns the scope's own variable
entries in insertion order. -/
def getVariables (st : EvalState) (sc : Nat) : List (String × Value) :=
  match scopeOf st sc with
  | some d => d.vars
  | none => []

/-- The write-back loop of `evaluateAST`:
`for (const [key, value] of globalScope.getVariables()) globalObj[key] = value`. -/
def mirrorInto (g : List (String × Value)) (vars : List (String × Value)) :
    List (String × Value) :=
  vars.foldl (fun acc kv => setKey acc kv.1 kv.2) g

/-- evaluateAST: seed the root scope from the caller object, run the
statement list, mirror the root variables back on success, and always
release the root scope.  The per-statement `formatError` wrapper only
fires when source locations are present; the embedded nodes carry none,
so faults pass through unchanged.  The result is the final outcome, the
caller's global object after the run, and the final state. -/
def evaluateAST (sched : Sched) (fuel : Nat) (g : List (String × Value))
    (prog : List Node) : Option (Except Exc Value × List (String × Value) × EvalState) :=
  let rootPair := scopeNew fuel none g initState
  match runStmts sched fuel prog rootPair.1 .undef rootPair.2 with
  | none => none
  | some (Except.ok v, st1) =>
    let g2 := mirrorInto g (getVariables st1 rootPair.1)
    let st2 := memRun fuel (.release rootPair.1) st1
    some (Except.ok v, g2, st2)
  | some (Except.error e, st1) =>
    let st2 := memRun fuel (.release rootPair.1) st1
    some (Except.error e, g, st2)

/-- The outcome component of `evaluateAST`. -/
def runResult (sched : Sched) (fuel : Nat) (g : List (String × Value))
    (prog : List Node) : Option (Except Exc Value) :=
  (evaluateAST sched fuel g prog).map (fun r => r.1)

/-- The final caller-visible globals of `evaluateAST`. -/
def runGlobals (sched : Sched) (fuel : Nat) (g : List (String × Value))
    (prog : List Node) : Option (List (String × Value)) :=
  (evaluateAST sched fuel g prog).map (fun r => r.2.1)

/-- The memory-tracker statistics after the run. -/
def runStats (sched : Sched) (fuel : Nat) (g : List (String × Value))
    (prog : List Node) : Option (Nat × Nat) :=
  (evaluateAST sched fuel g prog).map (fun r => getStats r.2.2)

/-- A fixed schedule for runs that never suspend. -/
def schedNull : Sched := fun _ => .undef

open Node
open Node

/-! Concrete programs used by the claim theorems. -/

/-- Program for claim C2: `try { throw 1; } catch (e) {}` — the catch
scope is created and never released. -/
def c2prog : List Node :=
  [tryS (block [throwS (lit (.num 1))]) (some (some "e", block [])) none]

/-- Base class of the super-resolution scenario: `class A { m() { return "A"; } }`. -/
def clsA : Node := classDecl "A" none
  [ ({ mname := "m", params := [], isStatic := false, isCtor := false, isAsync := false },
     block [retS (some (lit (.str "A")))]) ]

/-- Middle class: `class B extends A { m() { return "B"; } f() { return super.m(); } }`. -/
def clsB : Node := classDecl "B" (some (ident "A"))
  [ ({ mname := "m", params := [], isStatic := false, isCtor := false, isAsync := false },
     block [retS (some (lit (.str "B")))])
  , ({ mname := "f", params := [], isStatic := false, isCtor := false, isAsync := false },
     block [retS (some (callE (superMember "m") []))]) ]

/-- Deepest class: `class C extends B { m() { return "C"; } }`. -/
def clsC : Node := classDecl "C" (some (ident "B"))
  [ ({ mname := "m", params := [], isStatic := false, isCtor := false, isAsync := false },
     block [retS (some (lit (.str "C")))]) ]

/-- Program for claim C5: run `(new C()).f()` over the A/B/C hierarchy;
`super.m()` inside `B.f` should name `A.m` under the claimed semantics. -/
def c5prog : List Node :=
  [ clsA, clsB, clsC
  , varDecl "c" (some (newE (ident "C") []))
  , callE (member (ident "c") "f") [] ]

/-- Class for claim C7: `f` calls a sibling method through `this` and
then uses `this` again, which only works when the class context is
restored rather than cleared. -/
def clsK : Node := classDecl "K" none
  [ ({ mname := "f", params := [], isStatic := false, isCtor := false, isAsync := false },
     block [ callE (member thisE "g") []
           , retS (some (callE (member thisE "v") [])) ])
  , ({ mname := "g", params := [], isStatic := false, isCtor := false, isAsync := false },
     block [retS (some (lit (.num 1)))])
  , ({ mname := "v", params := [], isStatic := false, isCtor := false, isAsync := false },
     block [retS (some (lit (.num 2)))]) ]

/-- Program for claim C7: `(new K()).f()`. -/
def c7prog : List Node :=
  [ clsK, varDecl "k" (some (newE (ident "K") []))
  , callE (member (ident "k") "f") [] ]

/-- Program for claims C3/C4/C8 counterexamples. -/
def c3prog : List Node := [varDecl "x" none, ident "x"]

/-- Program observing a thrown non-error through a catch binding:
`try { throw 42; } catch (e) { e }`. -/
def c4prog : List Node :=
  [tryS (block [throwS (lit (.num 42))]) (some (some "e", block [ident "e"])) none]

/-- Program for the C8 counterexample: a single top-level definition. -/
def c8prog : List Node := [varDecl "x" (some (lit (.num 1)))]

/-- The globals object the C8 counterexample run ends with. -/
def c8finalGlobals : List (String × Value) :=
  [ ("Promise", .host 0)
  , ("Error", .hostErrCtor .genericError)
  , ("ReferenceError", .hostErrCtor .referenceError)
  , ("SyntaxError", .hostErrCtor .syntaxError)
  , ("TypeError", .hostErrCtor .typeError)
  , ("setTimeout", .host 1)
  , ("setInterval", .host 2)
  , ("console", .host 3)
  , ("x", .num 1) ]

/-- The outcome of a `ChainExpression` in terms of the outcome of the
wrapped expression: successes pass through, every exception becomes
undefined. -/
def chainOut : Except Exc Value → Except Exc Value
  | Except.ok v => Except.ok v
  | Except.error _ => Except.ok Value.undef

/-- The variable map the root scope holds immediately after construction:
the caller object entries, then the `DEFAULT_SCOPE` seeds upserted over
them. -/
def rootVars (g : List (String × Value)) : List (String × Value) :=
  defaultScope.foldl (fun acc kv => setKey acc kv.1 kv.2)
    (g.foldl (fun acc kv => setKey acc kv.1 kv.2) [])

/-- The world immediately after `evaluateAST` builds its root scope from
the caller object `g`. -/
def rootState (g : List (String × Value)) : EvalState :=
  { scopes := [(0,
      { vars := rootVars g, parent := none, children := [], refCount := 1, fns := [] })]
  , rfs := [], methodsH := [], classesH := [], objs := []
  , nextScope := 1, nextRf := 0, nextMethod := 0, nextClass := 0, nextObj := 0
  , trScopes := [0], trFns := [], classCtx := none, labels := [] }

/-- The spec-side switch semantics (claim C6): statements of one case
body, catching only the unlabelled break. -/
def specCaseStmts (ev : Node → Nat → M Value) : List Node → Nat → Value → M (Value ⊕ Value)
  | [], _, res => pure (Sum.inl res)
  | s :: rest, sc, res => fun st =>
    match ev s sc st with
    | none => none
    | some (Except.ok v, st1) => specCaseStmts ev rest sc v st1
    | some (Except.error (.brk none), st1) => some (Except.ok (Sum.inr res), st1)
    | some (Except.error e, st1) => some (Except.error e, st1)

def specFindStart (ev : Node → Nat → M Value) (d : Value) :
    List (Option Node × List Node) → Nat → M (Option (List (Option Node × List Node)))
  | [], _ => pure none
  | (none, c) :: rest, _ => pure (some ((none, c) :: rest))
  | (some t, c) :: rest, swSc => do
    let tv ← ev t swSc
    if jsStrictEq d tv then pure (some ((some t, c) :: rest))
    else specFindStart ev d rest swSc

def specRunCases (ev : Node → Nat → M Value) :
    List (Option Node × List Node) → Nat → Value → M Value
  | [], _, res => pure res
  | (_, conseq) :: rest, swSc, res => do
    let r ← specCaseStmts ev conseq swSc res
    match r with
    | Sum.inl res2 => specRunCases ev rest swSc res2
    | Sum.inr resB => pure resB

def specSwitch (ev : Node → Nat → M Value) (d : Value)
    (cases : List (Option Node × List Node)) (swSc : Nat) (res : Value) : M Value := do
  let so ← specFindStart ev d cases swSc
  match so with
  | none => pure res
  | some suffix => specRunCases ev suffix swSc res

mutual
/-- The deterministic fragment of the embedded syntax (claim C9): no
`await`, no `throw`, and no `async` function is ever created. -/
def nodeDF : Node → Bool
  | .lit _ => true
  | .ident _ => true
  | .thisE => true
  | .binary _ l r => nodeDF l && nodeDF r
  | .assignId _ rhs => nodeDF rhs
  | .assignMember o _ r => nodeDF o && nodeDF r
  | .member o _ => nodeDF o
  | .superMember _ => true
  | .callE c as => nodeDF c && listDF as
  | .superCall as => listDF as
  | .newE c as => nodeDF c && listDF as
  | .chain e => nodeDF e
  | .awaitE _ => false
  | .funcExpr _ body isAsync => nodeDF body && !isAsync
  | .block ss => listDF ss
  | .varDecl _ i => optDF i
  | .funcDecl _ _ body isAsync => nodeDF body && !isAsync
  | .classDecl _ superE methods => optDF superE && methodsDF methods
  | .retS a => optDF a
  | .brkS _ => true
  | .contS _ => true
  | .throwS _ => false
  | .ifS t c a => nodeDF t && nodeDF c && optDF a
  | .tryS b none fin => nodeDF b && optDF fin
  | .tryS b (some (_, hb)) fin => nodeDF b && nodeDF hb && optDF fin
  | .switchS d cs => nodeDF d && casesDF cs
  | .labeled _ b => nodeDF b

/-- Deterministic fragment, statement / argument lists. -/
def listDF : List Node → Bool
  | [] => true
  | n :: rest => nodeDF n && listDF rest

/-- Deterministic fragment, optional node. -/
def optDF : Option Node → Bool
  | none => true
  | some n => nodeDF n

/-- Deterministic fragment, switch case list. -/
def casesDF : List (Option Node × List Node) → Bool
  | [] => true
  | (t, b) :: rest => optDF t && listDF b && casesDF rest

/-- Deterministic fragment, class method list: every body is in the
fragment and no method is `async`. -/
def methodsDF : List (MethodSig × Node) → Bool
  | [] => true
  | (sig, body) :: rest => !sig.isAsync && nodeDF body && methodsDF rest
end

/-- One runtime function lies in the deterministic fragment. -/
def rfDF (kv : Nat × RFData) : Bool := nodeDF kv.2.body && !kv.2.isAsync

/-- Every runtime function in the heap lies in the deterministic
fragment: the only state component that can re-enter evaluation. -/
def stDF (st : EvalState) : Bool := st.rfs.all rfDF

/-- A computation preserves the deterministic-fragment state invariant. -/
def Pres {α : Type} (m : M α) : Prop :=
  ∀ st r st2, stDF st = true → m st = some (r, st2) → stDF st2 = true

/-- `a` is an ordinary result `m` can produce from some invariant state. -/
def OkR {α : Type} (m : M α) (a : α) : Prop :=
  ∃ st st2, stDF st = true ∧ m st = some (Except.ok a, st2)

/-- The two computations agree on every invariant state, and the first
preserves the invariant (claim C9: the two computations are one evaluator
body under two schedules). -/
def DetPres {α : Type} (m1 m2 : M α) : Prop :=
  (∀ st, stDF st = true → m1 st = m2 st) ∧ Pres m1

/-- A second, distinct schedule for the determinism witness. -/
def schedOne : Sched := fun _ => .num 1

/-- A concrete await-free, throw-free program for the determinism witness:
`let x = 1; x + 2`. -/
def c9prog : List Node :=
  [Node.varDecl "x" (some (Node.lit (.num 1))),
   Node.binary .add (Node.ident "x") (Node.lit (.num 2))]

/-! Definitions end here; the remainder of the file is lemmas and claim-level theorems. -/

/-! Small reasoning interface for the monad and the interpreter. -/

theorem pureM_apply {α : Type} (a : α) (st : EvalState) :
    (pure a : M α) st = some (Except.ok a, st) := rfl

theorem bindM_apply {α β : Type} (m : M α) (k : α → M β) (st : EvalState) :
    (m >>= k) st =
      match m st with
      | none => none
      | some (Except.error e, st1) => some (Except.error e, st1)
      | some (Except.ok a, st1) => k a st1 := rfl

theorem tryCatchM_apply {α : Type} (m : M α) (h : Exc → M α) (st : EvalState) :
    tryCatchM m h st =
      match m st with
      | none => none
      | some (Except.error e, st1) => h e st1
      | some (Except.ok a, st1) => some (Except.ok a, st1) := by
  unfold tryCatchM
  match m st with
  | none => rfl
  | some (Except.error e, st1) => rfl
  | some (Except.ok a, st1) => rfl

/-- Unfolding of the interpreter at successor fuel. -/
theorem interp_succ (sched : Sched) (f : Nat) :
    interp sched (f + 1) = mkStep sched f (interp sched f) := rfl

/-- Statement-loop equations. -/
theorem runStmtsF_nil (ev : Node → Nat → M Value) (sc : Nat) (res : Value) :
    runStmtsF ev [] sc res = pure res := rfl

theorem runStmtsF_cons (ev : Node → Nat → M Value) (s : Node) (rest : List Node)
    (sc : Nat) (res : Value) :
    runStmtsF ev (s :: rest) sc res = (do
      let v ← ev s sc
      runStmtsF ev rest sc v) := rfl

theorem interpNode_eq (sched : Sched) (f : Nat) :
    (interp sched f).node = evalNode sched f := rfl

/-! Association-list and root-scope lemmas. -/

theorem getKey_setKey_ne {α : Type} (l : List (String × α)) (k0 n : String) (v : α)
    (h : k0 ≠ n) : getKey (setKey l k0 v) n = getKey l n := by
  induction l with
  | nil => simp [setKey, getKey, h]
  | cons kv rest ih =>
    by_cases hk : kv.1 = k0
    · cases kv with
      | mk a b => simp_all [setKey, getKey]
    · cases kv with
      | mk a b =>
        simp only at hk
        simp [setKey, hk, getKey, ih]

theorem getKey_foldl_setKey_not_mem {α : Type} (l : List (String × α)) (n : String)
    (h : n ∉ l.map Prod.fst) (acc : List (String × α)) :
    getKey (l.foldl (fun a kv => setKey a kv.1 kv.2) acc) n = getKey acc n := by
  induction l generalizing acc with
  | nil => rfl
  | cons kv rest ih =>
    simp only [List.map_cons, List.mem_cons] at h
    push_neg at h
    rw [List.foldl_cons, ih h.2]
    exact getKey_setKey_ne acc kv.1 n kv.2 (Ne.symm h.1)

theorem getKey_rootVars (g : List (String × Value)) (n : String)
    (h1 : n ∉ g.map Prod.fst) (h2 : n ∉ defaultNames) :
    getKey (rootVars g) n = none := by
  unfold rootVars
  rw [getKey_foldl_setKey_not_mem defaultScope n h2,
      getKey_foldl_setKey_not_mem g n h1]
  rfl

theorem memRun_destroyFn_rfs_nil (f : Nat) (rf : Nat) (st : EvalState)
    (h : st.rfs = []) : memRun f (.destroyFn rf) st = st := by
  cases f with
  | zero => rfl
  | succ f => simp [memRun, h, hget]

theorem scopeDefine_single (f : Nat) (n : String) (v : Value) (st : EvalState)
    (d : ScopeData) (h1 : st.scopes = [(0, d)]) (h2 : st.rfs = [])
    (hv : runtimeFnOf v = none) :
    scopeDefine f 0 n v st =
      { st with scopes := [(0, { d with vars := setKey d.vars n v })] } := by
  have hso : scopeOf st 0 = some d := by simp [scopeOf, h1, hget]
  have hdestroy :
      (match getKey d.vars n with
        | some old =>
          match runtimeFnOf old with
          | some rf => memRun f (.destroyFn rf) st
          | none => st
        | none => st) = st := by
    cases hg : getKey d.vars n with
    | none => rfl
    | some old =>
      show (match runtimeFnOf old with
        | some rf => memRun f (.destroyFn rf) st
        | none => st) = st
      cases ho : runtimeFnOf old with
      | none => rfl
      | some rf => exact memRun_destroyFn_rfs_nil f rf st h2
  simp only [scopeDefine, hso, hdestroy, hv]
  simp [putScope, h1, hset]

theorem foldl_scopeDefine (f : Nat) (l : List (String × Value))
    (hl : ∀ kv ∈ l, runtimeFnOf kv.2 = none) :
    ∀ (st : EvalState) (d : ScopeData), st.scopes = [(0, d)] → st.rfs = [] →
      l.foldl (fun (acc : EvalState) (kv : String × Value) => scopeDefine f 0 kv.1 kv.2 acc) st =
        { st with scopes :=
            [(0, { d with vars := l.foldl (fun a kv => setKey a kv.1 kv.2) d.vars })] } := by
  induction l with
  | nil =>
    intro st d h1 h2
    simp only [List.foldl_nil]
    cases st
    simp_all
  | cons kv rest ih =>
    intro st d h1 h2
    have hkv : runtimeFnOf kv.2 = none := hl kv (List.mem_cons_self kv rest)
    rw [List.foldl_cons, scopeDefine_single f kv.1 kv.2 st d h1 h2 hkv]
    have step := ih (fun kv2 hm => hl kv2 (List.mem_cons_of_mem kv hm))
      { st with scopes := [(0, { d with vars := setKey d.vars kv.1 kv.2 })] }
      { d with vars := setKey d.vars kv.1 kv.2 } rfl h2
    rw [step]
    rfl

/-- A root scope built over the empty world is exactly `rootState`. -/
theorem scopeNew_root (f : Nat) (g : List (String × Value)) :
    scopeNew f none g initState = (0, rootState g) := by
  have hdefs : ∀ kv ∈ defaultScope, runtimeFnOf kv.2 = none := by decide
  unfold scopeNew initState
  simp only [List.nil_append]
  rw [foldl_scopeDefine f defaultScope hdefs _ _ rfl rfl]
  rfl

theorem mem_keys_setKey {α : Type} (l : List (String × α)) (k0 : String) (v : α)
    (k : String) :
    k ∈ (setKey l k0 v).map Prod.fst ↔ (k = k0 ∨ k ∈ l.map Prod.fst) := by
  induction l with
  | nil => simp [setKey]
  | cons kv rest ih =>
    by_cases hk : kv.1 = k0
    · cases kv with
      | mk a b =>
        simp only at hk
        subst hk
        simp [setKey]
        try tauto
    · cases kv with
      | mk a b =>
        simp only at hk
        simp [setKey, hk, ih]
        try tauto

theorem mem_keys_mirrorInto (vars g : List (String × Value)) (k : String) :
    k ∈ (mirrorInto g vars).map Prod.fst ↔
      (k ∈ g.map Prod.fst ∨ k ∈ vars.map Prod.fst) := by
  induction vars generalizing g with
  | nil => simp [mirrorInto]
  | cons kv rest ih =>
    show k ∈ (mirrorInto (setKey g kv.1 kv.2) rest).map Prod.fst ↔ _
    rw [ih]
    rw [mem_keys_setKey]
    simp
    tauto

/-- The behaviour of the `Identifier` case of `evaluateNode` in terms of
`Scope.lookup`, shared by the C1 and C3 theorems. -/
theorem evalIdent_spec (sched : Sched) (f : Nat) (st : EvalState) (sc : Nat) (n : String)
    (h : n ≠ "undefined") :
    evalNode sched (f + 1) (.ident n) sc st =
      some (match lookupV st sc n with
        | some v =>
          if v = Value.undef then Except.error (.thrown (refErrorVal n)) else Except.ok v
        | none => Except.error (.thrown (refErrorVal n)), st) := by
  show (mkStep sched f (interp sched f)).node (.ident n) sc st = _
  simp only [mkStep]
  rw [if_neg h]
  cases hl : lookupV st sc n with
  | none =>
    simp [bindM_apply, getS, hl, throwE, truthy]
  | some v =>
    by_cases hv : v = Value.undef
    · subst hv
      simp [bindM_apply, getS, hl, throwE, truthy]
    · simp [bindM_apply, getS, hl, throwE, truthy, hv, pureM_apply]

/-! Claim C1. -/

/-- Claim C1, counterexample.  The claim says a program reading a name
not present in the caller-supplied globals — `Promise` explicitly among
the examples — faults with a ReferenceError because the evaluator adds no
implicit names.  Under empty globals, the program `Promise` instead
completes successfully with the host `Promise` value seeded from
`Scope.DEFAULT_SCOPE`. -/
theorem c1_counterexample :
    runResult schedNull 30 [] [ident "Promise"] = some (Except.ok (Value.host 0)) := rfl

/-- Claim C1, amended: the root environment is seeded with the caller's
globals and then the eight `DEFAULT_SCOPE` bindings (which override
caller entries of the same names), so a program reading a name absent
from both — and distinct from the literal `undefined` — faults with the
reference error. -/
theorem c1_amended (sched : Sched) (f : Nat) (g : List (String × Value)) (n : String)
    (h1 : n ∉ g.map Prod.fst) (h2 : n ∉ defaultNames) (h3 : n ≠ "undefined") :
    runResult sched (f + 2) g [ident n] =
      some (Except.error (.thrown (refErrorVal n))) := by
  have hlk : lookupV (rootState g) 0 n = none := by
    simp [lookupV, scopeLookup, scopeOf, rootState, hget,
      getKey_rootVars g n h1 h2]
  have hid := evalIdent_spec sched (f + 1) (rootState g) 0 n h3
  rw [hlk] at hid
  unfold runResult evaluateAST
  rw [show f + 2 = f + 1 + 1 from rfl, scopeNew_root]
  simp only [runStmts, runStmtsF_cons, runStmtsF_nil, bindM_apply, hid]
  rfl

/-- Witness for the amended claim C1: the name `foo`, absent from the
empty globals and from `DEFAULT_SCOPE`, faults with the reference
error. -/
theorem c1_amended_witness :
    runResult schedNull 9 [] [ident "foo"] =
      some (Except.error (.thrown (refErrorVal "foo"))) :=
  c1_amended schedNull 7 [] "foo" (by simp) (by decide) (by decide)

/-! Claim C2. -/

/-- Claim C2 (code bug): on the failing input `try { throw 1; } catch
(e) {}` the run completes normally, yet after the root environment is
released the memory tracker still reports two live environments (the
root, pinned by the never-released catch scope, and the catch scope
itself) instead of zero. -/
theorem c2_code_eval :
    runResult schedNull 30 [] c2prog = some (Except.ok Value.undef) ∧
    runStats schedNull 30 [] c2prog = some (2, 0) := ⟨rfl, rfl⟩

/-! Claim C5. -/

/-- Claim C5 (code bug): `super.m()` inside `B.f`, invoked on an
instance of `C` (a subclass of `B`), resolves through
`Object.getPrototypeOf(Object.getPrototypeOf(this))` — the receiver's
prototype chain — and therefore finds `B.m` itself, yielding `"B"`.
Under the claimed semantics (the explicit superclass handle of the
defining class) it would find `A.m` and yield `"A"`. -/
theorem c5_code_eval :
    runResult schedNull 30 [] c5prog = some (Except.ok (Value.str "B")) := rfl

/-! Claim C7. -/

/-- Claim C7 (code bug): after the nested method call `this.g()`
returns, the evaluator's class context has been reset to null rather
than restored, so the outer activation's subsequent `this.v()` resolves
`this` to undefined and the run faults with a TypeError instead of
returning the method result. -/
theorem c7_code_eval :
    runResult schedNull 30 [] c7prog =
      some (Except.error (.thrown
        (.errorV .typeError "Cannot read property v of undefined"))) := rfl

/-! Claim C3. -/

/-- Claim C3, counterexample.  The claim says a bound name returns its
value whatever it is, including undefined.  The program
`let x; x` binds `x` to undefined and reading it faults with the
reference error instead of returning undefined. -/
theorem c3_counterexample :
    runResult schedNull 30 [] c3prog =
      some (Except.error (.thrown (refErrorVal "x"))) := rfl

/-! Claim C4. -/

/-- Claim C4, counterexample.  The claim says a thrown non-error
payload surfaces as a TypeError.  Executing `throw 42` and catching the
fault binds a generic `Error` whose message is `String(42)`; the kind is
`Error`, not `TypeError`, and the numeric payload itself is not
carried. -/
theorem c4_counterexample :
    runResult schedNull 30 [] c4prog =
      some (Except.ok (Value.errorV .genericError "42")) ∧
    Value.errorV ErrKind.genericError "42" ≠ Value.errorV ErrKind.typeError "42" :=
  ⟨rfl, by decide⟩

/-! Claim C8, counterexample. -/

/-- Claim C8, counterexample.  The claim says exactly the source's
top-level definitions are written back into the caller's globals.  For
the program `const x = 1` under empty globals, the mirrored globals also
contain the eight `DEFAULT_SCOPE` names, none of which is defined by the
source. -/
theorem c8_counterexample :
    runGlobals schedNull 30 [] c8prog = some c8finalGlobals ∧
    "Promise" ∈ c8finalGlobals.map Prod.fst := ⟨rfl, by decide⟩

/-- Claim C8, amended: on successful completion, `evaluateAST` writes
back the entire variable map of the root environment — the
`DEFAULT_SCOPE` seeds and the caller's globals alongside the top-level
definitions — so the final globals keys are the union of the initial
keys and the root-binding keys, not only the source's top-level
definitions. -/
theorem c8_amended (sched : Sched) (fuel : Nat) (g : List (String × Value))
    (prog : List Node) (v : Value) (g2 : List (String × Value)) (stf : EvalState)
    (h : evaluateAST sched fuel g prog = some (Except.ok v, g2, stf)) :
    ∃ vars, g2 = mirrorInto g vars ∧
      ∀ k, k ∈ g2.map Prod.fst ↔ (k ∈ g.map Prod.fst ∨ k ∈ vars.map Prod.fst) := by
  simp only [evaluateAST] at h
  split at h
  · cases h
  · rename_i v1 st1 heq
    simp only [Option.some.injEq, Prod.mk.injEq] at h
    obtain ⟨hv, hg2, hstf⟩ := h
    subst hg2
    exact ⟨getVariables st1 (scopeNew fuel none g initState).1, rfl,
      fun k => mem_keys_mirrorInto _ g k⟩
  · cases h

/-- Witness for the amended claim C8: the concrete run of `const x = 1`
under empty globals mirrors the whole root map, whose keys are the eight
seeds plus `x`. -/
theorem c8_amended_witness :
    ∃ vars, c8finalGlobals = mirrorInto [] vars ∧
      ∀ k, k ∈ c8finalGlobals.map Prod.fst ↔
        (k ∈ ([] : List (String × Value)).map Prod.fst ∨ k ∈ vars.map Prod.fst) :=
  c8_amended schedNull 30 [] c8prog (Value.undef) c8finalGlobals _ rfl

/-! Claim C3, amended. -/

/-- Claim C3, amended: evaluating an `Identifier` returns the bound
value when the name is bound to anything other than undefined, and
faults with the reference error both when the name is absent from the
whole chain and when it is bound to undefined (the two are
indistinguishable through `Scope.lookup`); the literal name `undefined`
evaluates to undefined without a fault. -/
theorem c3_amended (sched : Sched) (f : Nat) (st : EvalState) (sc : Nat) (n : String)
    (h : n ≠ "undefined") :
    evalNode sched (f + 1) (.ident n) sc st =
      some (match lookupV st sc n with
        | some v =>
          if v = Value.undef then Except.error (.thrown (refErrorVal n)) else Except.ok v
        | none => Except.error (.thrown (refErrorVal n)), st) :=
  evalIdent_spec sched f st sc n h

/-- Witness for the amended claim C3: reading the unbound name `y` in
the empty world faults with the reference error. -/
theorem c3_amended_witness :
    evalNode schedNull 4 (.ident "y") 0 initState =
      some (Except.error (.thrown (refErrorVal "y")), initState) := by
  have h := c3_amended schedNull 3 initState 0 "y" (by decide)
  simpa [lookupV, scopeLookup, scopeOf, hget, initState] using h

/-! Claim C4, amended. -/

/-- Claim C4, amended: `throw x` raises exactly `throwValue x` — an
`Error` instance passes through unchanged (and an enclosing catch binds
the very same error value), while a non-error payload is wrapped as a
generic `Error` carrying `String(x)`, not as a TypeError. -/
theorem c4_amended (sched : Sched) (f : Nat) (a : Node) (sc : Nat)
    (st st1 : EvalState) (v : Value)
    (h : evalNode sched f a sc st = some (Except.ok v, st1)) :
    evalNode sched (f + 1) (.throwS a) sc st = some (Except.error (throwValue v), st1) ∧
    (∀ k m, throwValue (Value.errorV k m) = Exc.thrown (Value.errorV k m)) ∧
    (isErrorInstance v = false →
      throwValue v = Exc.thrown (Value.errorV .genericError (jsToString v))) ∧
    (∀ k m, excToValue (throwValue (Value.errorV k m)) = Value.errorV k m) := by
  refine ⟨?_, ?_, ?_, ?_⟩
  · show (mkStep sched f (interp sched f)).node (.throwS a) sc st = _
    simp only [mkStep, interpNode_eq]
    simp [bindM_apply, h, throwE]
  · intro k m; rfl
  · intro hv
    cases v <;> simp_all [isErrorInstance, throwValue]
  · intro k m; rfl

/-- Witness for the amended claim C4: `throw 42` raises a generic Error
with message `"42"`. -/
theorem c4_amended_witness :
    evalNode schedNull 2 (.throwS (.lit (.num 42))) 0 initState =
      some (Except.error (.thrown (Value.errorV .genericError "42")), initState) := by
  have h := c4_amended schedNull 1 (.lit (.num 42)) 0 initState initState (.num 42) rfl
  simpa [throwValue, jsToString] using h.1

/-! Claim C10. -/

/-- Claim C10: whatever the wrapped expression of a `ChainExpression`
does, a success passes through and every exception — thrown errors of
any kind and the Return/Break/Continue control-flow signals alike — is
swallowed, the whole expression yielding undefined. -/
theorem c10_chain (sched : Sched) (f : Nat) (e : Node) (sc : Nat)
    (st st1 : EvalState) (r : Except Exc Value)
    (h : evalNode sched f e sc st = some (r, st1)) :
    evalNode sched (f + 1) (.chain e) sc st = some (chainOut r, st1) := by
  show (mkStep sched f (interp sched f)).node (.chain e) sc st = _
  simp only [mkStep, interpNode_eq]
  rw [tryCatchM_apply, h]
  cases r <;> rfl

/-- Witness for claim C10: a Break signal raised directly under the
chain wrapper is swallowed and the expression yields undefined. -/
theorem c10_chain_witness :
    evalNode schedNull 2 (.chain (.brkS none)) 0 initState =
      some (Except.ok Value.undef, initState) := by
  simpa [chainOut] using
    c10_chain schedNull 1 (.brkS none) 0 initState initState
      (Except.error (.brk none)) rfl

/-! C6: switch statement semantics. -/

theorem bindM_congr {α β : Type} (m : M α) (k1 k2 : α → M β)
    (h : ∀ a, k1 a = k2 a) : m >>= k1 = m >>= k2 := by
  funext st
  simp only [bindM_apply]
  cases m st with
  | none => rfl
  | some p =>
    cases p with
    | mk r st1 =>
      cases r with
      | ok a =>
        show k1 a st1 = k2 a st1
        rw [h a]
      | error e => rfl

theorem pure_bindM {α β : Type} (a : α) (k : α → M β) : (pure a : M α) >>= k = k a := rfl

theorem swBodyF_eq_specCaseStmts (ev : Node → Nat → M Value) (stmts : List Node)
    (sc : Nat) (res : Value) :
    swBodyF ev stmts sc res = specCaseStmts ev stmts sc res := by
  induction stmts generalizing res with
  | nil => rfl
  | cons s rest ih =>
    funext st
    show (match ev s sc st with
      | none => none
      | some (Except.ok v, st1) => swBodyF ev rest sc v st1
      | some (Except.error (.brk none), st1) => some (Except.ok (Sum.inr res), st1)
      | some (Except.error e, st1) => some (Except.error e, st1)) = _
    show _ = (match ev s sc st with
      | none => none
      | some (Except.ok v, st1) => specCaseStmts ev rest sc v st1
      | some (Except.error (.brk none), st1) => some (Except.ok (Sum.inr res), st1)
      | some (Except.error e, st1) => some (Except.error e, st1))
    cases hv : ev s sc st with
    | none => rfl
    | some p =>
      cases p with
      | mk r st1 =>
        cases r with
        | ok v => exact congrFun (ih v) st1
        | error e =>
          cases e with
          | brk l => cases l with
            | none => rfl
            | some lbl => rfl
          | ret v => rfl
          | cont l => rfl
          | thrown v => rfl

theorem switchLoopF_fallthrough (ev : Node → Nat → M Value) (d : Value) (swSc : Nat) :
    ∀ (cases : List (Option Node × List Node)) (m : Bool) (res : Value),
      switchLoopF ev d cases swSc m true res = specRunCases ev cases swSc res := by
  intro cases
  induction cases with
  | nil => intro m res; rfl
  | cons c rest ih =>
    intro m res
    obtain ⟨testO, conseq⟩ := c
    have key : ∀ m2 : Bool,
        (swBodyF ev conseq swSc res >>= fun r =>
          match r with
          | Sum.inl res2 => switchLoopF ev d rest swSc m2 true res2
          | Sum.inr resB => pure resB) =
        specRunCases ev ((testO, conseq) :: rest) swSc res := by
      intro m2
      rw [swBodyF_eq_specCaseStmts]
      show _ = (specCaseStmts ev conseq swSc res >>= fun r =>
        match r with
        | Sum.inl res2 => specRunCases ev rest swSc res2
        | Sum.inr resB => pure resB)
      exact bindM_congr _ _ _ (fun r => by
        cases r with
        | inl res2 => exact ih m2 res2
        | inr resB => rfl)
    cases m <;> cases testO <;> exact key _


theorem bindM_assoc {α β γ : Type} (m : M α) (k : α → M β) (h : β → M γ) :
    (m >>= k) >>= h = m >>= fun a => k a >>= h := by
  funext st
  simp only [bindM_apply]
  cases m st with
  | none => rfl
  | some p =>
    cases p with
    | mk r st1 =>
      cases r with
      | ok a => rfl
      | error e => rfl

theorem switchLoopF_scan (ev : Node → Nat → M Value) (d : Value) (swSc : Nat) :
    ∀ (cases : List (Option Node × List Node)) (res : Value),
      switchLoopF ev d cases swSc false false res = specSwitch ev d cases swSc res := by
  intro cases
  induction cases with
  | nil => intro res; rfl
  | cons c rest ih =>
    intro res
    obtain ⟨testO, conseq⟩ := c
    cases testO with
    | none =>
      show (swBodyF ev conseq swSc res >>= fun r2 =>
        match r2 with
        | Sum.inl res2 => switchLoopF ev d rest swSc false true res2
        | Sum.inr resB => pure resB) =
        specRunCases ev ((none, conseq) :: rest) swSc res
      rw [swBodyF_eq_specCaseStmts]
      show _ = (specCaseStmts ev conseq swSc res >>= fun r =>
        match r with
        | Sum.inl res2 => specRunCases ev rest swSc res2
        | Sum.inr resB => pure resB)
      exact bindM_congr _ _ _ (fun r => by
        cases r with
        | inl res2 => exact switchLoopF_fallthrough ev d swSc rest false res2
        | inr resB => rfl)
    | some t =>
      have hL : switchLoopF ev d ((some t, conseq) :: rest) swSc false false res =
          ev t swSc >>= (fun tv =>
            if jsStrictEq d tv then
              swBodyF ev conseq swSc res >>= fun r2 =>
                match r2 with
                | Sum.inl res2 => switchLoopF ev d rest swSc true true res2
                | Sum.inr resB => pure resB
            else switchLoopF ev d rest swSc false false res) := rfl
      have hR : specSwitch ev d ((some t, conseq) :: rest) swSc res =
          (ev t swSc >>= fun tv =>
            if jsStrictEq d tv then pure (some ((some t, conseq) :: rest))
            else specFindStart ev d rest swSc) >>=
          (fun so =>
            match so with
            | none => pure res
            | some suffix => specRunCases ev suffix swSc res) := rfl
      rw [hL, hR, bindM_assoc]
      refine bindM_congr _ _ _ (fun tv => ?_)
      cases h : jsStrictEq d tv with
      | true =>
        simp only [if_pos h]
        show (swBodyF ev conseq swSc res >>= fun r2 =>
          match r2 with
          | Sum.inl res2 => switchLoopF ev d rest swSc true true res2
          | Sum.inr resB => pure resB) =
          specRunCases ev ((some t, conseq) :: rest) swSc res
        rw [swBodyF_eq_specCaseStmts]
        show _ = (specCaseStmts ev conseq swSc res >>= fun r =>
          match r with
          | Sum.inl res2 => specRunCases ev rest swSc res2
          | Sum.inr resB => pure resB)
        exact bindM_congr _ _ _ (fun r => by
          cases r with
          | inl res2 => exact switchLoopF_fallthrough ev d swSc rest true res2
          | inr resB => rfl)
      | false =>
        simp only [h, Bool.false_eq_true, if_false]
        show switchLoopF ev d rest swSc false false res = specSwitch ev d rest swSc res
        exact ih res

/-- C6: the code of the switch statement agrees with the specified
find-then-run semantics: the discriminant is evaluated exactly once, the
cases are scanned in source order for the first test strictly equal (===)
to the discriminant - or the default case when it is reached with no prior
match - and from that point every consequent runs in order until an
unlabelled break signal is caught; an earlier default is never retried
after the scan has passed it. -/
theorem c6_switch (sched : Sched) (f : Nat) (disc : Node)
    (cases : List (Option Node × List Node)) (sc : Nat) :
    evalNode sched (f + 1) (.switchS disc cases) sc =
    (do
      let d ← evalNode sched f disc sc
      let swSc ← scopeNewM f (some sc) []
      tryFinallyM (specSwitch (evalNode sched f) d cases swSc .undef)
        (releaseM f swSc)) := by
  show (evalNode sched f disc sc >>= fun d =>
    scopeNewM f (some sc) [] >>= fun swSc =>
    tryFinallyM (switchLoopF (evalNode sched f) d cases swSc false false .undef)
      (releaseM f swSc)) = _
  exact bindM_congr _ _ _ (fun d => bindM_congr _ _ _ (fun swSc => by
    rw [switchLoopF_scan]))

/-! C9: schedule-independence of the deterministic fragment. -/

theorem all_hget {α : Type} (q : Nat × α → Bool) (l : List (Nat × α)) (k : Nat) (v : α)
    (hall : l.all q = true) (hg : hget l k = some v) : q (k, v) = true := by
  induction l with
  | nil => simp [hget] at hg
  | cons kv rest ih =>
    obtain ⟨k0, v0⟩ := kv
    simp only [List.all_cons, Bool.and_eq_true] at hall
    rw [hget] at hg
    by_cases hk : k0 = k
    · rw [if_pos hk] at hg
      injection hg with hv
      subst hk
      subst hv
      exact hall.1
    · rw [if_neg hk] at hg
      exact ih hall.2 hg

theorem all_hset {α : Type} (q : Nat × α → Bool) (l : List (Nat × α)) (k : Nat) (v : α)
    (hall : l.all q = true) (hv : q (k, v) = true) : (hset l k v).all q = true := by
  induction l with
  | nil => simp [hset]
  | cons kv rest ih =>
    simp only [List.all_cons, Bool.and_eq_true] at hall
    rw [hset]
    by_cases hk : kv.1 = k
    · rw [if_pos hk]
      simp only [List.all_cons, Bool.and_eq_true]
      exact ⟨hv, hall.2⟩
    · rw [if_neg hk]
      simp only [List.all_cons, Bool.and_eq_true]
      exact ⟨hall.1, ih hall.2⟩

theorem stDF_foldl {β : Type} (step : EvalState → β → EvalState) (l : List β)
    (hstep : ∀ acc x, stDF acc = true → stDF (step acc x) = true) :
    ∀ init, stDF init = true → stDF (l.foldl step init) = true := by
  induction l with
  | nil => intro init h; exact h
  | cons x rest ih =>
    intro init h
    exact ih (step init x) (hstep init x h)

theorem stDF_scopePatch (X : EvalState) (sc : Nat) (g : ScopeData → ScopeData)
    (h : stDF X = true) :
    stDF (match scopeOf X sc with
          | some d => putScope X sc (g d)
          | none => X) = true := by
  cases scopeOf X sc <;> exact h

theorem stDF_set_destroyed (st : EvalState) (rf : Nat) (fd : RFData)
    (hg : hget st.rfs rf = some fd) (h : stDF st = true) :
    stDF { st with rfs := hset st.rfs rf { fd with destroyed := true } } = true := by
  have hq : rfDF (rf, fd) = true := all_hget rfDF st.rfs rf fd h hg
  exact all_hset rfDF st.rfs rf { fd with destroyed := true } h hq

theorem stDF_detachParent (X : EvalState) (sc : Nat) (par : Option Nat) (f : Nat)
    (hrec : ∀ op st, stDF st = true → stDF (memRun f op st) = true)
    (h : stDF X = true) :
    stDF (match par with
          | none => X
          | some p =>
            match scopeOf X p with
            | none => X
            | some pd =>
              if sc ∈ pd.children then
                memRun f (.release p)
                  (putScope X p { pd with children := removeId pd.children sc })
              else X) = true := by
  cases par with
  | none => exact h
  | some p =>
    show stDF (match scopeOf X p with
      | none => X
      | some pd =>
        if sc ∈ pd.children then
          memRun f (.release p)
            (putScope X p { pd with children := removeId pd.children sc })
        else X) = true
    cases hsp : scopeOf X p with
    | none => exact h
    | some pd =>
      show stDF (if sc ∈ pd.children then
          memRun f (.release p)
            (putScope X p { pd with children := removeId pd.children sc })
        else X) = true
      by_cases hc : sc ∈ pd.children
      · rw [if_pos hc]
        exact hrec _ _ h
      · rw [if_neg hc]
        exact h

theorem stDF_memRun : ∀ (f : Nat) (op : MemOp) (st : EvalState),
    stDF st = true → stDF (memRun f op st) = true := by
  intro f
  induction f with
  | zero => intro op st h; exact h
  | succ f ih =>
    intro op st h
    cases op with
    | release sc =>
      rw [memRun]
      cases hs : scopeOf st sc with
      | none => simp only [hs]; exact h
      | some d =>
        simp only [hs]
        split
        · refine stDF_scopePatch _ _ _ ?_
          refine stDF_foldl _ _ (fun acc x hx => ih _ _ hx) _ ?_
          refine stDF_detachParent _ _ _ _ (fun op st h => ih op st h) ?_
          refine stDF_scopePatch _ _ _ ?_
          refine stDF_foldl _ _ (fun acc x hx => ih _ _ hx) _ ?_
          refine stDF_scopePatch _ _ _ ?_
          refine stDF_foldl _ _ (fun acc x hx => ?_) _ ?_
          · cases hr : runtimeFnOf x.2 with
            | none => simp only [hr]; exact hx
            | some rf => simp only [hr]; exact ih _ _ hx
          · exact h
        · exact h
    | destroyFn rf =>
      rw [memRun]
      cases hg : hget st.rfs rf with
      | none => simp only [hg]; exact h
      | some fd =>
        simp only [hg]
        split
        · exact h
        · refine stDF_scopePatch _ _ _ ?_
          exact ih _ _ (stDF_set_destroyed st rf fd hg h)

theorem stDF_scopePatchN (X : EvalState) (sc : Nat) (g : ScopeData → ScopeData)
    (h : stDF X = true) :
    stDF (match scopeOf X sc with
          | none => X
          | some d => putScope X sc (g d)) = true := by
  cases scopeOf X sc <;> exact h

theorem stDF_scopeDefine (f sc : Nat) (n : String) (v : Value) (st : EvalState)
    (h : stDF st = true) : stDF (scopeDefine f sc n v st) = true := by
  rw [scopeDefine]
  cases hs : scopeOf st sc with
  | none => simp only [hs]; exact h
  | some d =>
    simp only [hs]
    refine stDF_scopePatchN _ _ _ ?_
    cases hk : getKey d.vars n with
    | none => simp only [hk]; exact h
    | some old =>
      simp only [hk]
      cases hr : runtimeFnOf old with
      | none => simp only [hr]; exact h
      | some rf => simp only [hr]; exact stDF_memRun f _ st h

theorem stDF_scopeAssign : ∀ (cf f sc : Nat) (n : String) (v : Value) (st : EvalState),
    stDF st = true → stDF (scopeAssign cf f sc n v st).2 = true := by
  intro cf
  induction cf with
  | zero => intro f sc n v st h; exact h
  | succ cf ih =>
    intro f sc n v st h
    rw [scopeAssign]
    cases hs : scopeOf st sc with
    | none => simp only [hs]; exact h
    | some d =>
      simp only [hs]
      cases hk : getKey d.vars n with
      | none =>
        simp only [hk]
        cases hp : d.parent with
        | some p => simp only [hp]; exact ih f p n v st h
        | none => simp only [hp]; exact h
      | some old =>
        simp only [hk]
        cases hr : runtimeFnOf old with
        | none =>
          simp only [hr]
          cases hss : scopeOf st sc <;> exact h
        | some rf =>
          simp only [hr]
          have h1 := stDF_memRun f (.destroyFn rf) st h
          cases hss : scopeOf (memRun f (.destroyFn rf) st) sc <;> exact h1

theorem stDF_scopeAddRef (sc : Nat) (st : EvalState) (h : stDF st = true) :
    stDF (scopeAddRef sc st) = true := by
  show stDF (match scopeOf st sc with
    | some d => putScope st sc { d with refCount := d.refCount + 1 }
    | none => st) = true
  cases scopeOf st sc <;> exact h

theorem stDF_scopeNew (f : Nat) (parent : Option Nat) (initial : List (String × Value))
    (st : EvalState) (h : stDF st = true) : stDF (scopeNew f parent initial st).2 = true := by
  cases parent with
  | some p => exact stDF_scopePatch _ _ _ h
  | none =>
    rw [scopeNew]
    generalize defaultScope = ds
    exact stDF_foldl _ ds (fun acc x hx => stDF_scopeDefine f st.nextScope x.1 x.2 acc hx) _ h

theorem stDF_rfNew (params : List String) (body : Node) (sc : Nat) (isAsync : Bool)
    (st : EvalState) (hb : nodeDF body = true) (ha : isAsync = false)
    (h : stDF st = true) : stDF (rfNew params body sc isAsync st).2 = true := by
  have h1 : stDF { st with
      rfs := st.rfs ++ [(st.nextRf,
        ({ params := params, body := body, scopeId := sc, isAsync := isAsync,
           destroyed := false } : RFData))],
      nextRf := st.nextRf + 1 } = true := by
    show (st.rfs ++ [(st.nextRf,
        ({ params := params, body := body, scopeId := sc, isAsync := isAsync,
           destroyed := false } : RFData))]).all rfDF = true
    rw [List.all_append]
    simp only [Bool.and_eq_true]
    refine ⟨h, ?_⟩
    simp [rfDF, hb, ha]
  exact stDF_scopePatch _ _ _ (stDF_scopeAddRef sc _ h1)

theorem stDF_objNew (props : List (String × Value)) (proto : Option Nat)
    (st : EvalState) (h : stDF st = true) : stDF (objNew props proto st).2 = true := h

theorem stDF_setProp (t : Value) (p : String) (v : Value) (st : EvalState)
    (h : stDF st = true) : stDF (setProp t p v st) = true := by
  cases t with
  | obj r =>
    show stDF (match hget st.objs r with
      | some d => { st with objs := hset st.objs r { d with props := setKey d.props p v } }
      | none => st) = true
    cases hget st.objs r <;> exact h
  | classFn c =>
    show stDF (match hget st.classesH c with
      | some cd => { st with classesH := hset st.classesH c { cd with statics := setKey cd.statics p v } }
      | none => st) = true
    cases hget st.classesH c <;> exact h
  | undef => exact h
  | jsNull => exact h
  | bool b => exact h
  | num n => exact h
  | str s => exact h
  | wrappedFn rf => exact h
  | methodFn m => exact h
  | boundFn m t2 => exact h
  | hostErrCtor k => exact h
  | errorV k m => exact h
  | sigRet v2 => exact h
  | sigBrk l => exact h
  | sigCont l => exact h
  | host hh => exact h

theorem stDF_bindParams : ∀ (ps : List String) (f sc : Nat) (args : List Value)
    (st : EvalState), stDF st = true → stDF (bindParamsSt f sc ps args st) = true := by
  intro ps
  induction ps with
  | nil => intro f sc args st h; exact h
  | cons n ns ih =>
    intro f sc args st h
    rw [bindParamsSt]
    exact ih f sc args.tail _ (stDF_scopeDefine f sc n (args.headD .undef) st h)

theorem stDF_buildMethods : ∀ (ms : List (MethodSig × Node)) (f : Nat) (superCls : Value)
    (sc : Nat) (ctorAcc : Option MethodClosure) (statAcc instAcc : List (String × Value))
    (st : EvalState), methodsDF ms = true → stDF st = true →
    stDF (buildMethods f superCls sc ms ctorAcc statAcc instAcc st).2.2.2 = true := by
  intro ms
  induction ms with
  | nil => intro f superCls sc ca sa ia st hdf h; exact h
  | cons m rest ih =>
    intro f superCls sc ca sa ia st hdf h
    obtain ⟨sig, body⟩ := m
    rw [methodsDF] at hdf
    simp only [Bool.and_eq_true, Bool.not_eq_true'] at hdf
    obtain ⟨⟨hna, hb⟩, hrest⟩ := hdf
    have hrf : stDF (rfNew sig.params body sc sig.isAsync st).2 = true :=
      stDF_rfNew sig.params body sc sig.isAsync st hb hna h
    rw [buildMethods]
    rcases hpair : rfNew sig.params body sc sig.isAsync st with ⟨rf, st1⟩
    rw [hpair] at hrf
    simp only [hpair]
    by_cases hc : sig.isCtor = true
    · rw [if_pos hc]
      exact ih f superCls sc _ sa ia st1 hrest hrf
    · rw [if_neg hc]
      by_cases hst : sig.isStatic = true
      · rw [if_pos hst]
        exact ih f superCls sc ca _ _ _ hrest hrf
      · rw [if_neg hst]
        exact ih f superCls sc ca _ _ _ hrest hrf

theorem bind_ok {α β : Type} (m : M α) (k : α → M β) (st st1 : EvalState) (a : α)
    (h : m st = some (Except.ok a, st1)) : (m >>= k) st = k a st1 := by
  rw [bindM_apply, h]

theorem bind_err {α β : Type} (m : M α) (k : α → M β) (st st1 : EvalState) (e : Exc)
    (h : m st = some (Except.error e, st1)) :
    (m >>= k) st = some (Except.error e, st1) := by
  rw [bindM_apply, h]

theorem bind_nf {α β : Type} (m : M α) (k : α → M β) (st : EvalState)
    (h : m st = none) : (m >>= k) st = none := by
  rw [bindM_apply, h]

theorem DetPres_pure {α : Type} (a : α) : DetPres (pure a : M α) (pure a) := by
  constructor
  · intro st _; rfl
  · intro st r st2 h he
    rw [pureM_apply] at he
    cases he
    exact h

theorem DetPres_throwE {α : Type} (e : Exc) : DetPres (throwE e : M α) (throwE e) := by
  constructor
  · intro st _; rfl
  · intro st r st2 h he
    rw [show (throwE e : M α) st = some (Except.error e, st) from rfl] at he
    cases he
    exact h

theorem DetPres_timeout {α : Type} : DetPres (timeoutM : M α) timeoutM := by
  constructor
  · intro st _; rfl
  · intro st r st2 h he
    exact Option.noConfusion he

theorem DetPres_getS : DetPres getS getS := by
  constructor
  · intro st _; rfl
  · intro st r st2 h he
    rw [show getS st = some (Except.ok st, st) from rfl] at he
    cases he
    exact h

theorem OkR_getS {a : EvalState} (h : OkR getS a) : stDF a = true := by
  obtain ⟨st, st2, hst, he⟩ := h
  rw [show getS st = some (Except.ok st, st) from rfl] at he
  cases he
  exact hst

theorem DetPres_modifyS (f : EvalState → EvalState)
    (hf : ∀ st, stDF st = true → stDF (f st) = true) :
    DetPres (modifyS f) (modifyS f) := by
  constructor
  · intro st _; rfl
  · intro st r st2 h he
    rw [show modifyS f st = some (Except.ok (), f st) from rfl] at he
    cases he
    exact hf st h

theorem DetPres_bind {α β : Type} {m1 m2 : M α} {k1 k2 : α → M β}
    (hm : DetPres m1 m2) (hk : ∀ a, OkR m1 a → DetPres (k1 a) (k2 a)) :
    DetPres (m1 >>= k1) (m2 >>= k2) := by
  constructor
  · intro st hst
    cases hm1 : m1 st with
    | none =>
      rw [bind_nf m1 k1 st hm1, bind_nf m2 k2 st (by rw [← hm.1 st hst]; exact hm1)]
    | some p =>
      obtain ⟨r1, st1⟩ := p
      cases r1 with
      | error e =>
        rw [bind_err m1 k1 st st1 e hm1,
            bind_err m2 k2 st st1 e (by rw [← hm.1 st hst]; exact hm1)]
      | ok a =>
        rw [bind_ok m1 k1 st st1 a hm1,
            bind_ok m2 k2 st st1 a (by rw [← hm.1 st hst]; exact hm1)]
        exact (hk a ⟨st, st1, hst, hm1⟩).1 st1 (hm.2 st _ st1 hst hm1)
  · intro st r st2 hst he
    cases hm1 : m1 st with
    | none =>
      rw [bind_nf m1 k1 st hm1] at he
      exact Option.noConfusion he
    | some p =>
      obtain ⟨r1, st1⟩ := p
      cases r1 with
      | error e =>
        rw [bind_err m1 k1 st st1 e hm1] at he
        cases he
        exact hm.2 st _ _ hst hm1
      | ok a =>
        rw [bind_ok m1 k1 st st1 a hm1] at he
        exact (hk a ⟨st, st1, hst, hm1⟩).2 st1 r st2 (hm.2 st _ st1 hst hm1) he

theorem DetPres_bind' {α β : Type} {m1 m2 : M α} {k1 k2 : α → M β}
    (hm : DetPres m1 m2) (hk : ∀ a, DetPres (k1 a) (k2 a)) :
    DetPres (m1 >>= k1) (m2 >>= k2) :=
  DetPres_bind hm (fun a _ => hk a)

theorem tc_nf {α : Type} (m : M α) (h : Exc → M α) (st : EvalState)
    (hm : m st = none) : tryCatchM m h st = none := by
  rw [tryCatchM_apply, hm]

theorem tc_ok {α : Type} (m : M α) (h : Exc → M α) (st st1 : EvalState) (a : α)
    (hm : m st = some (Except.ok a, st1)) :
    tryCatchM m h st = some (Except.ok a, st1) := by
  rw [tryCatchM_apply, hm]

theorem tc_err {α : Type} (m : M α) (h : Exc → M α) (st st1 : EvalState) (e : Exc)
    (hm : m st = some (Except.error e, st1)) : tryCatchM m h st = h e st1 := by
  rw [tryCatchM_apply, hm]

theorem DetPres_tryCatch {α : Type} {m1 m2 : M α} {h1 h2 : Exc → M α}
    (hm : DetPres m1 m2) (hh : ∀ e, DetPres (h1 e) (h2 e)) :
    DetPres (tryCatchM m1 h1) (tryCatchM m2 h2) := by
  constructor
  · intro st hst
    cases hm1 : m1 st with
    | none =>
      rw [tc_nf m1 h1 st hm1, tc_nf m2 h2 st (by rw [← hm.1 st hst]; exact hm1)]
    | some p =>
      obtain ⟨r1, st1⟩ := p
      cases r1 with
      | error e =>
        rw [tc_err m1 h1 st st1 e hm1,
            tc_err m2 h2 st st1 e (by rw [← hm.1 st hst]; exact hm1)]
        exact (hh e).1 st1 (hm.2 st _ st1 hst hm1)
      | ok a =>
        rw [tc_ok m1 h1 st st1 a hm1,
            tc_ok m2 h2 st st1 a (by rw [← hm.1 st hst]; exact hm1)]
  · intro st r st2 hst he
    cases hm1 : m1 st with
    | none =>
      rw [tc_nf m1 h1 st hm1] at he
      exact Option.noConfusion he
    | some p =>
      obtain ⟨r1, st1⟩ := p
      cases r1 with
      | error e =>
        rw [tc_err m1 h1 st st1 e hm1] at he
        exact (hh e).2 st1 r st2 (hm.2 st _ st1 hst hm1) he
      | ok a =>
        rw [tc_ok m1 h1 st st1 a hm1] at he
        cases he
        exact hm.2 st _ _ hst hm1

theorem tfM_apply {α : Type} (m : M α) (fin : M Unit) (st : EvalState) :
    tryFinallyM m fin st =
      match m st with
      | none => none
      | some (r, st1) =>
        match fin st1 with
        | none => none
        | some (Except.error e2, st2) => some (Except.error e2, st2)
        | some (Except.ok _, st2) => some (r, st2) := rfl

theorem DetPres_tryFinally {α : Type} {m1 m2 : M α} {f1 f2 : M Unit}
    (hm : DetPres m1 m2) (hf : DetPres f1 f2) :
    DetPres (tryFinallyM m1 f1) (tryFinallyM m2 f2) := by
  constructor
  · intro st hst
    rw [tfM_apply, tfM_apply, ← hm.1 st hst]
    cases hm1 : m1 st with
    | none => rfl
    | some p =>
      obtain ⟨r1, st1⟩ := p
      show (match f1 st1 with
        | none => none
        | some (Except.error e2, b2) => some (Except.error e2, b2)
        | some (Except.ok _, b2) => some (r1, b2)) =
        (match f2 st1 with
        | none => none
        | some (Except.error e2, b2) => some (Except.error e2, b2)
        | some (Except.ok _, b2) => some (r1, b2))
      rw [hf.1 st1 (hm.2 st _ st1 hst hm1)]
  · intro st r st2 hst he
    rw [tfM_apply] at he
    cases hm1 : m1 st with
    | none =>
      rw [hm1] at he
      exact Option.noConfusion he
    | some p =>
      obtain ⟨r1, st1⟩ := p
      have hst1 : stDF st1 = true := hm.2 st _ st1 hst hm1
      rw [hm1] at he
      replace he : (match f1 st1 with
        | none => none
        | some (Except.error e2, b2) => some (Except.error e2, b2)
        | some (Except.ok _, b2) => some (r1, b2)) = some (r, st2) := he
      cases hfin : f1 st1 with
      | none =>
        rw [hfin] at he
        exact Option.noConfusion he
      | some q =>
        obtain ⟨r2, st2a⟩ := q
        rw [hfin] at he
        cases r2 with
        | error e2 =>
          replace he : some (Except.error e2, st2a) = some (r, st2) := he
          cases he
          exact hf.2 st1 _ _ hst1 hfin
        | ok u =>
          replace he : some (r1, st2a) = some (r, st2) := he
          cases he
          exact hf.2 st1 _ _ hst1 hfin

theorem DetPres_scopeNewM (f : Nat) (parent : Option Nat)
    (initial : List (String × Value)) :
    DetPres (scopeNewM f parent initial) (scopeNewM f parent initial) := by
  constructor
  · intro st _; rfl
  · intro st r st2 h he
    have hp := stDF_scopeNew f parent initial st h
    replace he : (match scopeNew f parent initial st with
      | (sc, st1) => some (Except.ok sc, st1)) = some (r, st2) := he
    rcases hq : scopeNew f parent initial st with ⟨sc, st1⟩
    rw [hq] at hp he
    replace he : some (Except.ok sc, st1) = some (r, st2) := he
    cases he
    exact hp

theorem DetPres_rfNewM (params : List String) (body : Node) (sc : Nat) (isAsync : Bool)
    (hb : nodeDF body = true) (ha : isAsync = false) :
    DetPres (rfNewM params body sc isAsync) (rfNewM params body sc isAsync) := by
  constructor
  · intro st _; rfl
  · intro st r st2 h he
    have hp := stDF_rfNew params body sc isAsync st hb ha h
    replace he : (match rfNew params body sc isAsync st with
      | (rf, st1) => some (Except.ok rf, st1)) = some (r, st2) := he
    rcases hq : rfNew params body sc isAsync st with ⟨rf, st1⟩
    rw [hq] at hp he
    replace he : some (Except.ok rf, st1) = some (r, st2) := he
    cases he
    exact hp

theorem DetPres_objNewM (props : List (String × Value)) (proto : Option Nat) :
    DetPres (objNewM props proto) (objNewM props proto) := by
  constructor
  · intro st _; rfl
  · intro st r st2 h he
    have hp := stDF_objNew props proto st h
    replace he : (match objNew props proto st with
      | (rr, st1) => some (Except.ok rr, st1)) = some (r, st2) := he
    rcases hq : objNew props proto st with ⟨rr, st1⟩
    rw [hq] at hp he
    replace he : some (Except.ok rr, st1) = some (r, st2) := he
    cases he
    exact hp

theorem DetPres_releaseM (f sc : Nat) : DetPres (releaseM f sc) (releaseM f sc) :=
  DetPres_modifyS _ (fun st h => stDF_memRun f _ st h)

theorem DetPres_assignOrThrow (f sc : Nat) (n : String) (v : Value) :
    DetPres (assignOrThrow f sc n v) (assignOrThrow f sc n v) := by
  constructor
  · intro st _; rfl
  · intro st r st2 h he
    have hp : stDF (assignV f st sc n v).2 = true := stDF_scopeAssign (sc + 1) f sc n v st h
    replace he : (match assignV f st sc n v with
      | (ok1, st1) =>
        if ok1 then some (Except.ok v, st1)
        else some (Except.error (.thrown (.errorV .genericError
          ("Cannot assign to undefined variable " ++ n))), st1)) = some (r, st2) := he
    rcases hq : assignV f st sc n v with ⟨ok1, st1⟩
    rw [hq] at hp he
    cases ok1 with
    | true =>
      replace he : some (Except.ok v, st1) = some (r, st2) := he
      cases he
      exact hp
    | false =>
      replace he : some (Except.error (.thrown (.errorV .genericError
        ("Cannot assign to undefined variable " ++ n))), st1) = some (r, st2) := he
      cases he
      exact hp

theorem DetPres_evalListF (ev1 ev2 : Node → Nat → M Value)
    (hev : ∀ n sc, nodeDF n = true → DetPres (ev1 n sc) (ev2 n sc)) :
    ∀ (nodes : List Node) (sc : Nat), listDF nodes = true →
      DetPres (evalListF ev1 nodes sc) (evalListF ev2 nodes sc) := by
  intro nodes
  induction nodes with
  | nil => intro sc _; exact DetPres_pure []
  | cons n rest ih =>
    intro sc hdf
    rw [listDF] at hdf
    simp only [Bool.and_eq_true] at hdf
    obtain ⟨hn, hrest⟩ := hdf
    exact DetPres_bind' (hev n sc hn)
      (fun v => DetPres_bind' (ih sc hrest) (fun vs => DetPres_pure _))

theorem DetPres_runStmtsF (ev1 ev2 : Node → Nat → M Value)
    (hev : ∀ n sc, nodeDF n = true → DetPres (ev1 n sc) (ev2 n sc)) :
    ∀ (stmts : List Node) (sc : Nat) (res : Value), listDF stmts = true →
      DetPres (runStmtsF ev1 stmts sc res) (runStmtsF ev2 stmts sc res) := by
  intro stmts
  induction stmts with
  | nil => intro sc res _; exact DetPres_pure _
  | cons s rest ih =>
    intro sc res hdf
    rw [listDF] at hdf
    simp only [Bool.and_eq_true] at hdf
    obtain ⟨hs, hrest⟩ := hdf
    exact DetPres_bind' (hev s sc hs) (fun v => ih sc v hrest)

theorem DetPres_swBodyF (ev1 ev2 : Node → Nat → M Value)
    (hev : ∀ n sc, nodeDF n = true → DetPres (ev1 n sc) (ev2 n sc)) :
    ∀ (stmts : List Node) (sc : Nat) (res : Value), listDF stmts = true →
      DetPres (swBodyF ev1 stmts sc res) (swBodyF ev2 stmts sc res) := by
  intro stmts
  induction stmts with
  | nil => intro sc res _; exact DetPres_pure _
  | cons s rest ih =>
    intro sc res hdf
    rw [listDF] at hdf
    simp only [Bool.and_eq_true] at hdf
    obtain ⟨hs, hrest⟩ := hdf
    constructor
    · intro st hst
      show (match ev1 s sc st with
        | none => none
        | some (Except.ok v, st1) => swBodyF ev1 rest sc v st1
        | some (Except.error (.brk none), st1) => some (Except.ok (Sum.inr res), st1)
        | some (Except.error e, st1) => some (Except.error e, st1)) =
        (match ev2 s sc st with
        | none => none
        | some (Except.ok v, st1) => swBodyF ev2 rest sc v st1
        | some (Except.error (.brk none), st1) => some (Except.ok (Sum.inr res), st1)
        | some (Except.error e, st1) => some (Except.error e, st1))
      rw [← (hev s sc hs).1 st hst]
      cases hm1 : ev1 s sc st with
      | none => rfl
      | some p =>
        obtain ⟨r1, st1⟩ := p
        cases r1 with
        | ok v => exact (ih sc v hrest).1 st1 ((hev s sc hs).2 st _ st1 hst hm1)
        | error e =>
          cases e with
          | brk l => cases l with
            | none => rfl
            | some lbl => rfl
          | ret v => rfl
          | cont l => rfl
          | thrown v => rfl
    · intro st r st2 hst he
      replace he : (match ev1 s sc st with
        | none => none
        | some (Except.ok v, st1) => swBodyF ev1 rest sc v st1
        | some (Except.error (.brk none), st1) => some (Except.ok (Sum.inr res), st1)
        | some (Except.error e, st1) => some (Except.error e, st1)) = some (r, st2) := he
      cases hm1 : ev1 s sc st with
      | none =>
        rw [hm1] at he
        exact Option.noConfusion he
      | some p =>
        obtain ⟨r1, st1⟩ := p
        rw [hm1] at he
        have hst1 := (hev s sc hs).2 st _ st1 hst hm1
        cases r1 with
        | ok v =>
          replace he : swBodyF ev1 rest sc v st1 = some (r, st2) := he
          exact (ih sc v hrest).2 st1 r st2 hst1 he
        | error e =>
          cases e with
          | brk l =>
            cases l with
            | none =>
              replace he : some (Except.ok (Sum.inr res), st1) = some (r, st2) := he
              cases he
              exact hst1
            | some lbl =>
              replace he : some (Except.error (Exc.brk (some lbl)), st1) = some (r, st2) := he
              cases he
              exact hst1
          | ret v =>
            replace he : some (Except.error (Exc.ret v), st1) = some (r, st2) := he
            cases he
            exact hst1
          | cont l =>
            replace he : some (Except.error (Exc.cont l), st1) = some (r, st2) := he
            cases he
            exact hst1
          | thrown v =>
            replace he : some (Except.error (Exc.thrown v), st1) = some (r, st2) := he
            cases he
            exact hst1

theorem DetPres_switchLoopF (ev1 ev2 : Node → Nat → M Value)
    (hev : ∀ n sc, nodeDF n = true → DetPres (ev1 n sc) (ev2 n sc)) (d : Value) :
    ∀ (cases : List (Option Node × List Node)) (swSc : Nat) (m ft : Bool) (res : Value),
      casesDF cases = true →
      DetPres (switchLoopF ev1 d cases swSc m ft res)
        (switchLoopF ev2 d cases swSc m ft res) := by
  intro cases
  induction cases with
  | nil => intro swSc m ft res _; exact DetPres_pure _
  | cons c rest ih =>
    intro swSc m ft res hdf
    obtain ⟨testO, conseq⟩ := c
    rw [casesDF] at hdf
    simp only [Bool.and_eq_true] at hdf
    obtain ⟨⟨hopt, hconseq⟩, hrest⟩ := hdf
    have hjp : ∀ (m2 ft2 : Bool) (r2 : Value), DetPres
        (if ft2 then
          swBodyF ev1 conseq swSc r2 >>= fun r3 =>
            match r3 with
            | Sum.inl res2 => switchLoopF ev1 d rest swSc m2 ft2 res2
            | Sum.inr resB => pure resB
        else switchLoopF ev1 d rest swSc m2 ft2 r2)
        (if ft2 then
          swBodyF ev2 conseq swSc r2 >>= fun r3 =>
            match r3 with
            | Sum.inl res2 => switchLoopF ev2 d rest swSc m2 ft2 res2
            | Sum.inr resB => pure resB
        else switchLoopF ev2 d rest swSc m2 ft2 r2) := by
      intro m2 ft2 r2
      cases ft2 with
      | true =>
        show DetPres
          (swBodyF ev1 conseq swSc r2 >>= fun r3 =>
            match r3 with
            | Sum.inl res2 => switchLoopF ev1 d rest swSc m2 true res2
            | Sum.inr resB => pure resB)
          (swBodyF ev2 conseq swSc r2 >>= fun r3 =>
            match r3 with
            | Sum.inl res2 => switchLoopF ev2 d rest swSc m2 true res2
            | Sum.inr resB => pure resB)
        refine DetPres_bind' (DetPres_swBodyF ev1 ev2 hev conseq swSc r2 hconseq)
          (fun r3 => ?_)
        cases r3 with
        | inl res2 => exact ih swSc m2 true res2 hrest
        | inr resB => exact DetPres_pure _
      | false =>
        show DetPres (switchLoopF ev1 d rest swSc m2 false r2)
          (switchLoopF ev2 d rest swSc m2 false r2)
        exact ih swSc m2 false r2 hrest
    cases testO with
    | none => exact hjp m (if m = false ∧ ft = false then true else ft) res
    | some t =>
      rw [optDF] at hopt
      cases ft with
      | true => exact hjp m true res
      | false =>
        refine DetPres_bind' (hev t swSc hopt) (fun tv => ?_)
        cases jsStrictEq d tv with
        | true => exact hjp true true res
        | false => exact hjp m false res

theorem DetPres_itePP {α : Type} (c : Prop) [inst : Decidable c] (x y : α) :
    DetPres (if c then (pure x : M α) else pure y) (if c then pure x else pure y) := by
  by_cases hc : c
  · rw [if_pos hc]
    exact DetPres_pure x
  · rw [if_neg hc]
    exact DetPres_pure y

theorem mkStep_applyV_DF (sched1 sched2 : Sched) (f : Nat) (p1 p2 : Interp)
    (ihc : ∀ rfId args, DetPres (p1.call rfId args) (p2.call rfId args))
    (iha : ∀ v t args, DetPres (p1.applyV v t args) (p2.applyV v t args))
    (ihm : ∀ mc t args, DetPres (p1.methodA mc t args) (p2.methodA mc t args)) :
    ∀ callee thisV args, DetPres ((mkStep sched1 f p1).applyV callee thisV args)
      ((mkStep sched2 f p2).applyV callee thisV args) := by
  intro callee thisV args
  cases callee with
  | wrappedFn rf => exact ihc rf args
  | methodFn mI =>
    refine DetPres_bind DetPres_getS (fun a _ => ?_)
    cases hget a.methodsH mI with
    | some mc => exact ihm mc thisV args
    | none => exact DetPres_throwE _
  | boundFn mI t =>
    refine DetPres_bind DetPres_getS (fun a _ => ?_)
    cases hget a.methodsH mI with
    | some mc => exact ihm mc t args
    | none => exact DetPres_throwE _
  | classFn c =>
    refine DetPres_bind DetPres_getS (fun a _ => ?_)
    cases hget a.classesH c with
    | none => exact DetPres_throwE _
    | some cd =>
      show DetPres
        (match cd.ctorM with
         | some mc => p1.methodA mc thisV args
         | none =>
           if truthy cd.superCls then do
             modifyS (fun st1 => { st1 with classCtx := some (thisV, cd.superCls) })
             tryFinallyM
               (do
                 let _ ← p1.applyV cd.superCls thisV args
                 pure Value.undef)
               (modifyS (fun st1 => { st1 with classCtx := none }))
           else pure .undef)
        (match cd.ctorM with
         | some mc => p2.methodA mc thisV args
         | none =>
           if truthy cd.superCls then do
             modifyS (fun st1 => { st1 with classCtx := some (thisV, cd.superCls) })
             tryFinallyM
               (do
                 let _ ← p2.applyV cd.superCls thisV args
                 pure Value.undef)
               (modifyS (fun st1 => { st1 with classCtx := none }))
           else pure .undef)
      cases cd.ctorM with
      | some mc => exact ihm mc thisV args
      | none =>
        cases truthy cd.superCls with
        | false => exact DetPres_pure _
        | true =>
          refine DetPres_bind' (DetPres_modifyS _ (fun st h => h)) (fun _ => ?_)
          exact DetPres_tryFinally
            (DetPres_bind' (iha cd.superCls thisV args) (fun _ => DetPres_pure _))
            (DetPres_modifyS _ (fun st h => h))
  | hostErrCtor k => exact DetPres_pure _
  | undef => exact DetPres_throwE _
  | jsNull => exact DetPres_throwE _
  | bool b => exact DetPres_throwE _
  | num n => exact DetPres_throwE _
  | str s => exact DetPres_throwE _
  | obj r => exact DetPres_throwE _
  | errorV k m => exact DetPres_throwE _
  | sigRet v => exact DetPres_throwE _
  | sigBrk l => exact DetPres_throwE _
  | sigCont l => exact DetPres_throwE _
  | host hh => exact DetPres_throwE _

theorem mkStep_methodA_DF (sched1 sched2 : Sched) (f : Nat) (p1 p2 : Interp)
    (ihc : ∀ rfId args, DetPres (p1.call rfId args) (p2.call rfId args)) :
    ∀ mc thisV args, DetPres ((mkStep sched1 f p1).methodA mc thisV args)
      ((mkStep sched2 f p2).methodA mc thisV args) := by
  intro mc thisV args
  refine DetPres_bind' (DetPres_scopeNewM f (some mc.defScope) []) (fun msc => ?_)
  refine DetPres_bind' (DetPres_modifyS _
    (fun st h => stDF_scopeDefine f msc "this" thisV st h)) (fun _ => ?_)
  refine DetPres_bind' (DetPres_modifyS _
    (fun st h => stDF_scopeDefine f msc "super" mc.superCls st h)) (fun _ => ?_)
  refine DetPres_bind' (DetPres_modifyS _ (fun st h => h)) (fun _ => ?_)
  exact DetPres_tryFinally (ihc mc.rf args)
    (DetPres_bind' (DetPres_modifyS _ (fun st h => h)) (fun _ => DetPres_releaseM f msc))

theorem mkStep_newV_DF (sched1 sched2 : Sched) (f : Nat) (p1 p2 : Interp)
    (iha : ∀ v t args, DetPres (p1.applyV v t args) (p2.applyV v t args)) :
    ∀ ctor args, DetPres ((mkStep sched1 f p1).newV ctor args)
      ((mkStep sched2 f p2).newV ctor args) := by
  intro ctor args
  cases ctor with
  | classFn c =>
    refine DetPres_bind DetPres_getS (fun a _ => ?_)
    cases hget a.classesH c with
    | none => exact DetPres_throwE _
    | some cd =>
      refine DetPres_bind' (DetPres_objNewM [] (some cd.protoObj)) (fun instRef => ?_)
      exact DetPres_bind' (iha (.classFn c) (.obj instRef) args)
        (fun r => DetPres_pure _)
  | hostErrCtor k => exact DetPres_pure _
  | undef => exact DetPres_throwE _
  | jsNull => exact DetPres_throwE _
  | bool b => exact DetPres_throwE _
  | num n => exact DetPres_throwE _
  | str s => exact DetPres_throwE _
  | obj r => exact DetPres_throwE _
  | wrappedFn rf => exact DetPres_throwE _
  | methodFn m => exact DetPres_throwE _
  | boundFn m t => exact DetPres_throwE _
  | errorV k m => exact DetPres_throwE _
  | sigRet v => exact DetPres_throwE _
  | sigBrk l => exact DetPres_throwE _
  | sigCont l => exact DetPres_throwE _
  | host hh => exact DetPres_throwE _

theorem mkStep_call_DF (sched1 sched2 : Sched) (f : Nat) (p1 p2 : Interp)
    (ihn : ∀ n sc, nodeDF n = true → DetPres (p1.node n sc) (p2.node n sc)) :
    ∀ rfId args, DetPres ((mkStep sched1 f p1).call rfId args)
      ((mkStep sched2 f p2).call rfId args) := by
  intro rfId args
  refine DetPres_bind DetPres_getS (fun a ha => ?_)
  have hadf : stDF a = true := OkR_getS ha
  cases hg : hget a.rfs rfId with
  | none => exact DetPres_throwE _
  | some fd =>
    have hq : rfDF (rfId, fd) = true := all_hget rfDF a.rfs rfId fd hadf hg
    rw [rfDF] at hq
    simp only [Bool.and_eq_true, Bool.not_eq_true'] at hq
    obtain ⟨hb, hasync⟩ := hq
    show DetPres
      (if fd.destroyed then
        throwE (.thrown (.errorV .genericError "Cannot call destroyed function"))
      else do
        let fnSc ← scopeNewM f (some fd.scopeId) []
        tryFinallyM
          (do
            modifyS (bindParamsSt f fnSc fd.params args)
            tryCatchM
              (do
                let r ← p1.node fd.body fnSc
                pure (if fd.isAsync then awaitVal sched1 r else r))
              (fun e =>
                match e with
                | .ret v => pure (if fd.isAsync then awaitVal sched1 v else v)
                | _ => throwE e))
          (releaseM f fnSc))
      (if fd.destroyed then
        throwE (.thrown (.errorV .genericError "Cannot call destroyed function"))
      else do
        let fnSc ← scopeNewM f (some fd.scopeId) []
        tryFinallyM
          (do
            modifyS (bindParamsSt f fnSc fd.params args)
            tryCatchM
              (do
                let r ← p2.node fd.body fnSc
                pure (if fd.isAsync then awaitVal sched2 r else r))
              (fun e =>
                match e with
                | .ret v => pure (if fd.isAsync then awaitVal sched2 v else v)
                | _ => throwE e))
          (releaseM f fnSc))
    cases fd.destroyed with
    | true => exact DetPres_throwE _
    | false =>
      refine DetPres_bind' (DetPres_scopeNewM f (some fd.scopeId) []) (fun fnSc => ?_)
      refine DetPres_tryFinally ?_ (DetPres_releaseM f fnSc)
      refine DetPres_bind' (DetPres_modifyS _
        (fun st h => stDF_bindParams fd.params f fnSc args st h)) (fun _ => ?_)
      refine DetPres_tryCatch ?_ (fun e => ?_)
      · refine DetPres_bind' (ihn fd.body fnSc hb) (fun r => ?_)
        rw [hasync]
        exact DetPres_pure _
      · cases e with
        | ret v =>
          rw [hasync]
          exact DetPres_pure _
        | brk l => exact DetPres_throwE _
        | cont l => exact DetPres_throwE _
        | thrown v => exact DetPres_throwE _

theorem DetPres_classAssemble (f : Nat) (superCls : Value) (sc : Nat)
    (methods : List (MethodSig × Node)) (hms : methodsDF methods = true) :
    DetPres
      (fun st =>
        let built := buildMethods f superCls sc methods none [] [] st
        let protoLink :=
          match superCls with
          | .classFn s =>
            match hget built.2.2.2.classesH s with
            | some sd => some sd.protoObj
            | none => none
          | _ => none
        let poPair := objNew built.2.2.1 protoLink built.2.2.2
        let cid := poPair.2.nextClass
        let cd : ClassData :=
          { protoObj := poPair.1, statics := built.2.1, ctorM := built.1, superCls := superCls }
        some (Except.ok (Value.classFn cid),
          { poPair.2 with classesH := poPair.2.classesH ++ [(cid, cd)], nextClass := cid + 1 }))
      (fun st =>
        let built := buildMethods f superCls sc methods none [] [] st
        let protoLink :=
          match superCls with
          | .classFn s =>
            match hget built.2.2.2.classesH s with
            | some sd => some sd.protoObj
            | none => none
          | _ => none
        let poPair := objNew built.2.2.1 protoLink built.2.2.2
        let cid := poPair.2.nextClass
        let cd : ClassData :=
          { protoObj := poPair.1, statics := built.2.1, ctorM := built.1, superCls := superCls }
        some (Except.ok (Value.classFn cid),
          { poPair.2 with classesH := poPair.2.classesH ++ [(cid, cd)], nextClass := cid + 1 })) := by
  constructor
  · intro st _; rfl
  · intro st r st2 h he
    have hbm := stDF_buildMethods methods f superCls sc none [] [] st hms h
    injection he with hpair
    injection hpair with h1 h2
    rw [← h2]
    exact hbm

theorem mkStep_classDef_DF (sched1 sched2 : Sched) (f : Nat) (p1 p2 : Interp)
    (ihn : ∀ n sc, nodeDF n = true → DetPres (p1.node n sc) (p2.node n sc)) :
    ∀ superE methods sc, optDF superE = true → methodsDF methods = true →
      DetPres ((mkStep sched1 f p1).classDef superE methods sc)
        ((mkStep sched2 f p2).classDef superE methods sc) := by
  intro superE methods sc hso hms
  cases superE with
  | none => exact DetPres_classAssemble f .jsNull sc methods hms
  | some e =>
    rw [optDF] at hso
    refine DetPres_bind' (ihn e sc hso) (fun v => ?_)
    cases isFunction v with
    | true => exact DetPres_classAssemble f v sc methods hms
    | false =>
      exact DetPres_bind' (DetPres_throwE _)
        (fun y => DetPres_classAssemble f y sc methods hms)

set_option maxHeartbeats 1000000 in
theorem mkStep_node_DF (sched1 sched2 : Sched) (f : Nat) (p1 p2 : Interp)
    (ihn : ∀ n sc, nodeDF n = true → DetPres (p1.node n sc) (p2.node n sc))
    (ihc : ∀ rfId args, DetPres (p1.call rfId args) (p2.call rfId args))
    (iha : ∀ v t args, DetPres (p1.applyV v t args) (p2.applyV v t args))
    (ihw : ∀ v args, DetPres (p1.newV v args) (p2.newV v args))
    (ihd : ∀ so ms sc, optDF so = true → methodsDF ms = true →
      DetPres (p1.classDef so ms sc) (p2.classDef so ms sc)) :
    ∀ n sc, nodeDF n = true → DetPres ((mkStep sched1 f p1).node n sc)
      ((mkStep sched2 f p2).node n sc) := by
  intro n sc h
  cases n with
  | lit v => exact DetPres_pure v
  | ident nm =>
    show DetPres
      (if nm = "undefined" then pure .undef
       else getS >>= fun st =>
         if (lookupV st sc nm).getD .undef = .undef ∧
             truthy ((lookupV st sc nm).getD .undef) = false then
           throwE (.thrown (refErrorVal nm))
         else pure ((lookupV st sc nm).getD .undef))
      (if nm = "undefined" then pure .undef
       else getS >>= fun st =>
         if (lookupV st sc nm).getD .undef = .undef ∧
             truthy ((lookupV st sc nm).getD .undef) = false then
           throwE (.thrown (refErrorVal nm))
         else pure ((lookupV st sc nm).getD .undef))
    by_cases hn : nm = "undefined"
    · rw [if_pos hn]
      exact DetPres_pure _
    · rw [if_neg hn]
      refine DetPres_bind DetPres_getS (fun a _ => ?_)
      show DetPres
        (if (lookupV a sc nm).getD .undef = .undef ∧
            truthy ((lookupV a sc nm).getD .undef) = false then
          throwE (.thrown (refErrorVal nm))
        else pure ((lookupV a sc nm).getD .undef))
        (if (lookupV a sc nm).getD .undef = .undef ∧
            truthy ((lookupV a sc nm).getD .undef) = false then
          throwE (.thrown (refErrorVal nm))
        else pure ((lookupV a sc nm).getD .undef))
      by_cases hcond : (lookupV a sc nm).getD .undef = .undef ∧
          truthy ((lookupV a sc nm).getD .undef) = false
      · rw [if_pos hcond]
        exact DetPres_throwE _
      · rw [if_neg hcond]
        exact DetPres_pure _
  | thisE =>
    refine DetPres_bind DetPres_getS (fun a _ => ?_)
    show DetPres
      (if (lookupV a sc "this").getD .undef = .undef then
        match a.classCtx with
        | some ctx => pure ctx.1
        | none => pure .undef
      else pure ((lookupV a sc "this").getD .undef))
      (if (lookupV a sc "this").getD .undef = .undef then
        match a.classCtx with
        | some ctx => pure ctx.1
        | none => pure .undef
      else pure ((lookupV a sc "this").getD .undef))
    by_cases hc : (lookupV a sc "this").getD .undef = .undef
    · rw [if_pos hc]
      cases a.classCtx with
      | some ctx => exact DetPres_pure _
      | none => exact DetPres_pure _
    · rw [if_neg hc]
      exact DetPres_pure _
  | binary op l r =>
    rw [nodeDF] at h
    simp only [Bool.and_eq_true] at h
    obtain ⟨hl, hr⟩ := h
    exact DetPres_bind' (ihn l sc hl)
      (fun lv => DetPres_bind' (ihn r sc hr) (fun rv => DetPres_pure _))
  | assignId nm rhs =>
    rw [nodeDF] at h
    exact DetPres_bind' (ihn rhs sc h) (fun v => DetPres_assignOrThrow f sc nm v)
  | assignMember objE pr rhs =>
    rw [nodeDF] at h
    simp only [Bool.and_eq_true] at h
    obtain ⟨ho, hr⟩ := h
    refine DetPres_bind' (ihn objE sc ho) (fun objV => ?_)
    refine DetPres_bind' (ihn rhs sc hr) (fun mv => ?_)
    by_cases hc : objV = Value.undef ∨ objV = Value.jsNull
    · rw [if_pos hc]
      exact DetPres_throwE _
    · rw [if_neg hc]
      exact DetPres_bind' (DetPres_modifyS _ (fun st h2 => stDF_setProp objV pr mv st h2))
        (fun _ => DetPres_pure _)
  | member objE pr =>
    rw [nodeDF] at h
    refine DetPres_bind' (ihn objE sc h) (fun objV => ?_)
    by_cases hc : objV = Value.undef ∨ objV = Value.jsNull
    · rw [if_pos hc]
      exact DetPres_throwE _
    · rw [if_neg hc]
      exact DetPres_bind DetPres_getS (fun a _ => DetPres_pure _)
  | superMember pr =>
    refine DetPres_bind DetPres_getS (fun a _ => ?_)
    cases a.classCtx with
    | none => exact DetPres_throwE _
    | some ctx =>
      show DetPres
        (if truthy ctx.2 = false then
          throwE (.thrown (.errorV .genericError
            "Cannot use super in a class with no superclass"))
        else
          match getProtoV (getProtoV ctx.1 a) a with
          | .jsNull => throwE (.thrown (.errorV .typeError
              ("Cannot read property " ++ pr ++ " of null")))
          | .undef => throwE (.thrown (.errorV .typeError
              ("Cannot read property " ++ pr ++ " of undefined")))
          | sp =>
            if isFunction (getProp sp pr a) then pure (bindThis (getProp sp pr a) ctx.1)
            else pure (getProp sp pr a))
        (if truthy ctx.2 = false then
          throwE (.thrown (.errorV .genericError
            "Cannot use super in a class with no superclass"))
        else
          match getProtoV (getProtoV ctx.1 a) a with
          | .jsNull => throwE (.thrown (.errorV .typeError
              ("Cannot read property " ++ pr ++ " of null")))
          | .undef => throwE (.thrown (.errorV .typeError
              ("Cannot read property " ++ pr ++ " of undefined")))
          | sp =>
            if isFunction (getProp sp pr a) then pure (bindThis (getProp sp pr a) ctx.1)
            else pure (getProp sp pr a))
      by_cases htr : truthy ctx.2 = false
      · rw [if_pos htr]
        exact DetPres_throwE _
      · rw [if_neg htr]
        cases getProtoV (getProtoV ctx.1 a) a with
        | jsNull => exact DetPres_throwE _
        | undef => exact DetPres_throwE _
        | bool b => exact DetPres_itePP _ _ _
        | num n2 => exact DetPres_itePP _ _ _
        | str s => exact DetPres_itePP _ _ _
        | obj r => exact DetPres_itePP _ _ _
        | wrappedFn rf => exact DetPres_itePP _ _ _
        | classFn c => exact DetPres_itePP _ _ _
        | methodFn m => exact DetPres_itePP _ _ _
        | boundFn m t => exact DetPres_itePP _ _ _
        | hostErrCtor k => exact DetPres_itePP _ _ _
        | errorV k m => exact DetPres_itePP _ _ _
        | sigRet v => exact DetPres_itePP _ _ _
        | sigBrk l => exact DetPres_itePP _ _ _
        | sigCont l => exact DetPres_itePP _ _ _
        | host hh => exact DetPres_itePP _ _ _
  | callE c as =>
    rw [nodeDF] at h
    simp only [Bool.and_eq_true] at h
    obtain ⟨hcal, hargs⟩ := h
    refine DetPres_bind' (ihn c sc hcal) (fun calleeV => ?_)
    refine DetPres_bind' (DetPres_evalListF _ _ ihn as sc hargs) (fun argVals => ?_)
    cases hfn : isFunction calleeV with
    | false => exact DetPres_throwE _
    | true =>
      cases c with
      | member o pr2 =>
        rw [nodeDF] at hcal
        exact DetPres_bind' (ihn o sc hcal) (fun objV => iha calleeV objV argVals)
      | superMember pr2 => exact iha calleeV .undef argVals
      | lit v => exact iha calleeV .undef argVals
      | ident nm2 => exact iha calleeV .undef argVals
      | thisE => exact iha calleeV .undef argVals
      | binary op l2 r2 => exact iha calleeV .undef argVals
      | assignId nm2 rhs2 => exact iha calleeV .undef argVals
      | assignMember o2 p2 r2 => exact iha calleeV .undef argVals
      | callE c2 a2 => exact iha calleeV .undef argVals
      | superCall a2 => exact iha calleeV .undef argVals
      | newE c2 a2 => exact iha calleeV .undef argVals
      | chain e2 => exact iha calleeV .undef argVals
      | awaitE e2 => exact iha calleeV .undef argVals
      | funcExpr ps b2 ia => exact iha calleeV .undef argVals
      | block ss => exact iha calleeV .undef argVals
      | varDecl nm2 i2 => exact iha calleeV .undef argVals
      | funcDecl nm2 ps b2 ia => exact iha calleeV .undef argVals
      | classDecl nm2 se ms => exact iha calleeV .undef argVals
      | retS a2 => exact iha calleeV .undef argVals
      | brkS l2 => exact iha calleeV .undef argVals
      | contS l2 => exact iha calleeV .undef argVals
      | throwS a2 => exact iha calleeV .undef argVals
      | ifS t2 c2 a2 => exact iha calleeV .undef argVals
      | tryS b2 h2 f2 => exact iha calleeV .undef argVals
      | switchS d2 cs2 => exact iha calleeV .undef argVals
      | labeled l2 b2 => exact iha calleeV .undef argVals
  | superCall as =>
    rw [nodeDF] at h
    refine DetPres_bind DetPres_getS (fun a _ => ?_)
    cases a.classCtx with
    | none => exact DetPres_throwE _
    | some ctx =>
      show DetPres
        (if truthy ctx.2 = false then
          throwE (.thrown (.errorV .genericError
            "Cannot use super() in a class with no superclass"))
        else do
          let argVals ← evalListF p1.node as sc
          tryCatchM
            (do
              let _ ← p1.applyV ctx.2 ctx.1 argVals
              pure Value.undef)
            (fun e =>
              throwE (.thrown (.errorV .genericError
                ("Error in super() call: " ++ jsToString (excToValue e))))))
        (if truthy ctx.2 = false then
          throwE (.thrown (.errorV .genericError
            "Cannot use super() in a class with no superclass"))
        else do
          let argVals ← evalListF p2.node as sc
          tryCatchM
            (do
              let _ ← p2.applyV ctx.2 ctx.1 argVals
              pure Value.undef)
            (fun e =>
              throwE (.thrown (.errorV .genericError
                ("Error in super() call: " ++ jsToString (excToValue e))))))
      by_cases htr : truthy ctx.2 = false
      · rw [if_pos htr, if_pos htr]
        exact DetPres_throwE _
      · rw [if_neg htr, if_neg htr]
        refine DetPres_bind' (DetPres_evalListF _ _ ihn as sc h) (fun argVals => ?_)
        exact DetPres_tryCatch
          (DetPres_bind' (iha ctx.2 ctx.1 argVals) (fun _ => DetPres_pure _))
          (fun e => DetPres_throwE _)
  | newE c as =>
    rw [nodeDF] at h
    simp only [Bool.and_eq_true] at h
    obtain ⟨hcal, hargs⟩ := h
    refine DetPres_bind' (ihn c sc hcal) (fun ctor => ?_)
    refine DetPres_bind' (DetPres_evalListF _ _ ihn as sc hargs) (fun argVals => ?_)
    cases isFunction ctor with
    | true => exact ihw ctor argVals
    | false => exact DetPres_throwE _
  | chain e =>
    rw [nodeDF] at h
    exact DetPres_tryCatch (ihn e sc h) (fun _ => DetPres_pure _)
  | awaitE e =>
    rw [nodeDF] at h
    exact Bool.noConfusion h
  | funcExpr ps body isAsync =>
    rw [nodeDF] at h
    simp only [Bool.and_eq_true, Bool.not_eq_true'] at h
    obtain ⟨hb, hna⟩ := h
    exact DetPres_bind' (DetPres_rfNewM ps body sc isAsync hb hna)
      (fun rf => DetPres_pure _)
  | block stmts =>
    rw [nodeDF] at h
    refine DetPres_bind' (DetPres_scopeNewM f (some sc) []) (fun bsc => ?_)
    exact DetPres_tryFinally (DetPres_runStmtsF _ _ ihn stmts bsc .undef h)
      (DetPres_releaseM f bsc)
  | varDecl nm initO =>
    rw [nodeDF] at h
    cases initO with
    | some e =>
      rw [optDF] at h
      refine DetPres_bind' (ihn e sc h) (fun v => ?_)
      exact DetPres_bind' (DetPres_modifyS _ (fun st h2 => stDF_scopeDefine f sc nm v st h2))
        (fun _ => DetPres_pure _)
    | none =>
      exact DetPres_bind' (DetPres_pure Value.undef)
        (fun v => DetPres_bind' (DetPres_modifyS _
          (fun st h2 => stDF_scopeDefine f sc nm v st h2))
          (fun _ => DetPres_pure _))
  | funcDecl nm ps body isAsync =>
    rw [nodeDF] at h
    simp only [Bool.and_eq_true, Bool.not_eq_true'] at h
    obtain ⟨hb, hna⟩ := h
    refine DetPres_bind' (DetPres_rfNewM ps body sc isAsync hb hna) (fun rf => ?_)
    exact DetPres_bind' (DetPres_modifyS _
      (fun st h2 => stDF_scopeDefine f sc nm (.wrappedFn rf) st h2))
      (fun _ => DetPres_pure _)
  | classDecl nm superE methods =>
    rw [nodeDF] at h
    simp only [Bool.and_eq_true] at h
    obtain ⟨hso, hms⟩ := h
    refine DetPres_bind' (ihd superE methods sc hso hms) (fun cv => ?_)
    exact DetPres_bind' (DetPres_modifyS _ (fun st h2 => stDF_scopeDefine f sc nm cv st h2))
      (fun _ => DetPres_pure _)
  | retS argO =>
    rw [nodeDF] at h
    cases argO with
    | some e =>
      rw [optDF] at h
      exact DetPres_bind' (ihn e sc h) (fun v => DetPres_throwE _)
    | none => exact DetPres_throwE _
  | brkS l =>
    cases l with
    | none => exact DetPres_bind DetPres_getS (fun a _ => DetPres_throwE _)
    | some lbl =>
      refine DetPres_bind DetPres_getS (fun a _ => ?_)
      show DetPres
        (if lbl ∈ a.labels then throwE (.brk (some lbl))
         else throwE (.thrown (.errorV .genericError ("Undefined label: " ++ lbl))))
        (if lbl ∈ a.labels then throwE (.brk (some lbl))
         else throwE (.thrown (.errorV .genericError ("Undefined label: " ++ lbl))))
      by_cases hmem : lbl ∈ a.labels
      · rw [if_pos hmem]
        exact DetPres_throwE _
      · rw [if_neg hmem]
        exact DetPres_throwE _
  | contS l =>
    cases l with
    | none => exact DetPres_bind DetPres_getS (fun a _ => DetPres_throwE _)
    | some lbl =>
      refine DetPres_bind DetPres_getS (fun a _ => ?_)
      show DetPres
        (if lbl ∈ a.labels then throwE (.cont (some lbl))
         else throwE (.thrown (.errorV .genericError ("Undefined label: " ++ lbl))))
        (if lbl ∈ a.labels then throwE (.cont (some lbl))
         else throwE (.thrown (.errorV .genericError ("Undefined label: " ++ lbl))))
      by_cases hmem : lbl ∈ a.labels
      · rw [if_pos hmem]
        exact DetPres_throwE _
      · rw [if_neg hmem]
        exact DetPres_throwE _
  | throwS a =>
    rw [nodeDF] at h
    exact Bool.noConfusion h
  | ifS test conseq altO =>
    cases altO with
    | some alt2 =>
      rw [nodeDF] at h
      simp only [Bool.and_eq_true] at h
      obtain ⟨⟨ht, hc⟩, ha2⟩ := h
      rw [optDF] at ha2
      refine DetPres_bind' (ihn test sc ht) (fun tV => ?_)
      cases truthy tV with
      | true => exact ihn conseq sc hc
      | false => exact ihn alt2 sc ha2
    | none =>
      rw [nodeDF] at h
      simp only [Bool.and_eq_true] at h
      obtain ⟨⟨ht, hc⟩, ha2⟩ := h
      refine DetPres_bind' (ihn test sc ht) (fun tV => ?_)
      cases truthy tV with
      | true => exact ihn conseq sc hc
      | false => exact DetPres_pure _
  | tryS blk handler fin =>
    rcases handler with _ | ⟨pn, hnode⟩
    · -- no catch handler
      rw [nodeDF] at h
      simp only [Bool.and_eq_true] at h
      obtain ⟨hblk, hfin⟩ := h
      cases fin with
      | some fe =>
        rw [optDF] at hfin
        refine DetPres_tryFinally ?_ (DetPres_bind' (ihn fe sc hfin) (fun _ => DetPres_pure _))
        exact DetPres_tryCatch (ihn blk sc hblk) (fun e => DetPres_throwE e)
      | none =>
        exact DetPres_tryCatch (ihn blk sc hblk) (fun e => DetPres_throwE e)
    · -- catch handler present
      rw [nodeDF] at h
      simp only [Bool.and_eq_true] at h
      obtain ⟨⟨hblk, hh⟩, hfin⟩ := h
      have hcore : DetPres
          (tryCatchM (p1.node blk sc)
            (fun e => do
              let hsc ← scopeNewM f (some sc) []
              (match pn with
               | some pname => modifyS (scopeDefine f hsc pname (excToValue e))
               | none => pure ())
              p1.node hnode hsc))
          (tryCatchM (p2.node blk sc)
            (fun e => do
              let hsc ← scopeNewM f (some sc) []
              (match pn with
               | some pname => modifyS (scopeDefine f hsc pname (excToValue e))
               | none => pure ())
              p2.node hnode hsc)) := by
        refine DetPres_tryCatch (ihn blk sc hblk) (fun e => ?_)
        refine DetPres_bind' (DetPres_scopeNewM f (some sc) []) (fun hsc => ?_)
        cases pn with
        | some pname =>
          exact DetPres_bind' (DetPres_modifyS _
            (fun st h2 => stDF_scopeDefine f hsc pname (excToValue e) st h2))
            (fun _ => ihn hnode hsc hh)
        | none =>
          exact DetPres_bind' (DetPres_pure ()) (fun _ => ihn hnode hsc hh)
      cases fin with
      | some fe =>
        rw [optDF] at hfin
        exact DetPres_tryFinally hcore
          (DetPres_bind' (ihn fe sc hfin) (fun _ => DetPres_pure _))
      | none => exact hcore
  | switchS disc cs =>
    rw [nodeDF] at h
    simp only [Bool.and_eq_true] at h
    obtain ⟨hd, hcs⟩ := h
    refine DetPres_bind' (ihn disc sc hd) (fun d => ?_)
    refine DetPres_bind' (DetPres_scopeNewM f (some sc) []) (fun swSc => ?_)
    exact DetPres_tryFinally
      (DetPres_switchLoopF _ _ ihn d cs swSc false false .undef hcs)
      (DetPres_releaseM f swSc)
  | labeled lbl body =>
    rw [nodeDF] at h
    refine DetPres_bind' (DetPres_modifyS _ (fun st h2 => h2)) (fun _ => ?_)
    exact DetPres_tryFinally (ihn body sc h) (DetPres_modifyS _ (fun st h2 => h2))

theorem interp_DF (sched1 sched2 : Sched) : ∀ f : Nat,
    (∀ n sc, nodeDF n = true →
      DetPres ((interp sched1 f).node n sc) ((interp sched2 f).node n sc)) ∧
    (∀ rfId args, DetPres ((interp sched1 f).call rfId args)
      ((interp sched2 f).call rfId args)) ∧
    (∀ v t args, DetPres ((interp sched1 f).applyV v t args)
      ((interp sched2 f).applyV v t args)) ∧
    (∀ mc t args, DetPres ((interp sched1 f).methodA mc t args)
      ((interp sched2 f).methodA mc t args)) ∧
    (∀ v args, DetPres ((interp sched1 f).newV v args)
      ((interp sched2 f).newV v args)) ∧
    (∀ so ms sc, optDF so = true → methodsDF ms = true →
      DetPres ((interp sched1 f).classDef so ms sc)
        ((interp sched2 f).classDef so ms sc)) := by
  intro f
  induction f with
  | zero =>
    exact ⟨fun n sc _ => DetPres_timeout, fun rfId args => DetPres_timeout,
      fun v t args => DetPres_timeout, fun mc t args => DetPres_timeout,
      fun v args => DetPres_timeout, fun so ms sc _ _ => DetPres_timeout⟩
  | succ f ih =>
    obtain ⟨ihn, ihc, iha, ihm, ihw, ihd⟩ := ih
    refine ⟨?_, ?_, ?_, ?_, ?_, ?_⟩
    · exact mkStep_node_DF sched1 sched2 f _ _ ihn ihc iha ihw ihd
    · exact mkStep_call_DF sched1 sched2 f _ _ ihn
    · exact mkStep_applyV_DF sched1 sched2 f _ _ ihc iha ihm
    · exact mkStep_methodA_DF sched1 sched2 f _ _ ihc
    · exact mkStep_newV_DF sched1 sched2 f _ _ iha
    · exact mkStep_classDef_DF sched1 sched2 f _ _ ihn

/-- C9: two-run determinism for the deterministic fragment.  For a program
with no `await`, no `throw`, and no `async` function definitions, the host
promise schedule is never consulted, so two runs of `evaluate` under the
same globals - here, one run under each of two arbitrary schedules - agree
on the result and on the final caller-visible globals, even though a binary
expression dispatches both operands through `Promise.all` (the synchronous
completion order is left then right in either run). -/
theorem c9_determinism (sched1 sched2 : Sched) (fuel : Nat)
    (g : List (String × Value)) (prog : List Node) (h : listDF prog = true) :
    runResult sched1 fuel g prog = runResult sched2 fuel g prog ∧
    runGlobals sched1 fuel g prog = runGlobals sched2 fuel g prog := by
  have hroot : stDF (scopeNew fuel none g initState).2 = true :=
    stDF_scopeNew fuel none g initState rfl
  have hrun : runStmts sched1 fuel prog (scopeNew fuel none g initState).1 .undef
      (scopeNew fuel none g initState).2 =
      runStmts sched2 fuel prog (scopeNew fuel none g initState).1 .undef
      (scopeNew fuel none g initState).2 :=
    (DetPres_runStmtsF (interp sched1 fuel).node (interp sched2 fuel).node
      ((interp_DF sched1 sched2 fuel).1) prog (scopeNew fuel none g initState).1
      .undef h).1 (scopeNew fuel none g initState).2 hroot
  have hAST : evaluateAST sched1 fuel g prog = evaluateAST sched2 fuel g prog := by
    simp only [evaluateAST]
    rw [hrun]
  exact ⟨by rw [runResult, runResult, hAST], by rw [runGlobals, runGlobals, hAST]⟩

/-- Witness for C9 at a concrete program and two distinct schedules. -/
theorem c9_determinism_witness :
    listDF c9prog = true ∧
    (runResult schedNull 6 [] c9prog = runResult schedOne 6 [] c9prog ∧
     runGlobals schedNull 6 [] c9prog = runGlobals schedOne 6 [] c9prog) :=
  ⟨by simp [c9prog, listDF, nodeDF, optDF],
   c9_determinism schedNull schedOne 6 [] c9prog
     (by simp [c9prog, listDF, nodeDF, optDF])⟩

end Scraggy
